import Mathlib

/-!
A shallow embedding of the VPAX extraction pipeline implemented in
`src/vpax/main.py`, together with theorems settling the specification
claims about it.  Pure helpers of the program become Lean functions;
the stateful pipeline becomes explicit state passing over a model of
the filesystem, the process-wide loguru sink list, and the emitted log
messages; fallible steps return `Except` values mirroring the Python
exceptions.  The archive, JSON and tabular libraries are modelled at
the level of their observable contracts, as the specification treats
them as external capabilities.
-/

namespace Vpax

/-- JSON values as produced by `json.load`. -/
inductive Json where
  | null
  | bool (b : Bool)
  | num (n : Int)
  | str (s : String)
  | arr (xs : List Json)
  | obj (kvs : List (String × Json))

/-- A tabular value as built by `pandas.DataFrame` from an array of row
objects: a column list and one cell row per record; a row missing a key
yields an empty (`none`, i.e. NaN) cell. -/
structure DataFrame where
  columns : List String
  rows : List (List (Option Json))

/-- Contents of a file in the modelled filesystem.  A plain `file` records
whether its text parses as JSON (`file (some j)`) or not (`file none`); an
`archive` is a readable zip whose entries are relative paths with plain-file
bodies; `csv` is the structured content written by `DataFrame.to_csv`. -/
inductive Content where
  | file (asJson : Option Json)
  | csv (header : List String) (rows : List (List (Option Json)))
  | archive (entries : List (List String × Option Json))

/-- The Python exceptions that the pipeline can raise.  `fileNotFound` and
`keyError` carry the path / key exactly as their Python counterparts do;
`json.JSONDecodeError` carries no file path, and neither does its model. -/
inductive PyError where
  | archiveOpenError (file : List String)
  | jsonDecodeError
  | fileNotFound (file : List String)
  | keyError (key : String)
  | typeError
  | valueError
deriving DecidableEq

instance : DecidableEq (Except PyError Unit) := fun a b =>
  match a, b with
  | .ok (), .ok () => isTrue rfl
  | .error e₁, .error e₂ =>
      match decEq e₁ e₂ with
      | isTrue h => isTrue (by rw [h])
      | isFalse h => isFalse (fun hc => h (by cases hc; rfl))
  | .ok _, .error _ => isFalse (fun hc => Except.noConfusion hc)
  | .error _, .ok _ => isFalse (fun hc => Except.noConfusion hc)

/-- Lookup in the association-list filesystem. -/
def fsLookup : List (List String × Content) → List String → Option Content
  | [], _ => none
  | (q, c) :: rest, p => if q = p then some c else fsLookup rest p

/-- Writing a file: overwrite the existing binding in place, else append. -/
def fsWrite : List (List String × Content) → List String → Content →
    List (List String × Content)
  | [], p, c => [(p, c)]
  | (q, c₀) :: rest, p, c =>
      if q = p then (q, c) :: rest else (q, c₀) :: fsWrite rest p c

/-- The mutable process state: the filesystem, the set of directories known
to exist, the process-wide loguru sink list (in order of `logger.add`), and
the emitted log, each entry recording the sink list at emission time (loguru
delivers a message to every sink configured when it is emitted).  The fields
`extractorRuns` and `attempted` are observation-only instrumentation (the
specification itself suggests call-count assertions): `extractorRuns` lists
the container paths `extract_vpax` was invoked on, `attempted` lists the
sections whose export was attempted. -/
structure VState where
  fs : List (List String × Content)
  dirs : List (List String)
  sinks : List (List String)
  msgLog : List (List (List String) × String)
  extractorRuns : List (List String)
  attempted : List String

/-- The pipeline monad: state plus Python-style exceptions; an exception
propagates but the state changes made before it persist. -/
def M (α : Type) : Type := VState → Except PyError α × VState

instance : Monad M where
  pure a := fun st => (.ok a, st)
  bind x f := fun st =>
    match x st with
    | (.ok a, st₁) => f a st₁
    | (.error e, st₁) => (.error e, st₁)

/-- Raising a Python exception. -/
def raiseErr {α : Type} (e : PyError) : M α := fun st => (.error e, st)

/-- Lifting a pure fallible computation. -/
def liftE {α : Type} (r : Except PyError α) : M α := fun st => (r, st)

/-- A `try`/`except` block: run the handler on the exception. -/
def tryCatchM {α : Type} (x : M α) (h : PyError → M α) : M α := fun st =>
  match x st with
  | (.ok a, st₁) => (.ok a, st₁)
  | (.error e, st₁) => h e st₁

/-- Emitting one log record: the message is delivered to every currently
configured sink. -/
def logMsg (m : String) : M Unit := fun st =>
  (.ok (), { st with msgLog := st.msgLog ++ [(st.sinks, m)] })

/-- The effect of `logger.add`: appends a sink, never removes one. -/
def addSink (p : List String) : M Unit := fun st =>
  (.ok (), { st with sinks := st.sinks ++ [p] })

def getFs : M (List (List String × Content)) := fun st => (.ok st.fs, st)

def writeFile (p : List String) (c : Content) : M Unit := fun st =>
  (.ok (), { st with fs := fsWrite st.fs p c })

/-- All the `take`-prefixes of a path, longest included. -/
def prefixesOf (d : List String) : List (List String) :=
  (List.range (d.length + 1)).map (fun k => d.take k)

/-- The effect of `mkdir(parents=True, exist_ok=True)`: the directory and
all its ancestors exist afterwards. -/
def mkdirAll (d : List String) : M Unit := fun st =>
  (.ok (), { st with dirs := st.dirs ++ prefixesOf d })

/-- Ghost instrumentation: record one invocation of the Archive Extractor. -/
def markExtractorRun (p : List String) : M Unit := fun st =>
  (.ok (), { st with extractorRuns := st.extractorRuns ++ [p] })

/-- Ghost instrumentation: record that a section export was attempted. -/
def markAttempt (info : String) : M Unit := fun st =>
  (.ok (), { st with attempted := st.attempted ++ [info] })

/-- Python `str.endswith`: the second string is a suffix of the first.
(Defined over the character lists so that concrete runs evaluate.) -/
def pyEndsWith (s suffix : String) : Bool :=
  List.isSuffixOf suffix.data s.data

/-- Rendering a component path the way it appears in log messages. -/
def showPath (p : List String) : String := String.intercalate "/" p

/-- The stem of a file name as computed by `pathlib.Path.stem`: the name
without its suffix, the suffix starting at the last dot provided that dot is
neither the first nor the last character of the name. -/
def stemOf (name : String) : String :=
  let cs := name.data
  let dots := (List.range cs.length).filter (fun i => cs.getD i ' ' = '.')
  match dots.getLast? with
  | none => name
  | some i => if 0 < i ∧ i < cs.length - 1 then String.mk (cs.take i) else name

/-- A container file path: the directory holding it and its file name. -/
structure VPath where
  parent : List String
  name : String
deriving DecidableEq

def VPath.stem (f : VPath) : String := stemOf f.name

def VPath.filePath (f : VPath) : List String := f.parent ++ [f.name]

/-- The module constant `output_dir = "extracted"`. -/
def output_dir : String := "extracted"

/-- The per-container working directory `<parent>/<stem>`. -/
def workingDir (f : VPath) : List String := f.parent ++ [f.stem]

/-- The extraction subdirectory `<parent>/<stem>/extracted`. -/
def extractedDir (f : VPath) : List String := workingDir f ++ [output_dir]

/-- The manifest path `<parent>/<stem>/extracted/DaxVpaView.json`. -/
def pathToJson (f : VPath) : List String := extractedDir f ++ ["DaxVpaView.json"]

/-- The per-container log file `<parent>/<stem>/vpax.log`. -/
def logFilePath (f : VPath) : List String := workingDir f ++ ["vpax.log"]

/-- The export file name `f"{stem} - {info}.csv"`. -/
def csvName (stem info : String) : String := stem ++ " - " ++ info ++ ".csv"

/-- The export path `<parent>/<stem>/<stem> - <info>.csv`. -/
def csvPath (f : VPath) (info : String) : List String :=
  workingDir f ++ [csvName f.stem info]

/-- Lookup in a parsed JSON object; `json.load` keeps the last of duplicate
keys, so the later binding wins. -/
def lookupKV : List (String × Json) → String → Option Json
  | [], _ => none
  | (k, v) :: rest, key =>
      match lookupKV rest key with
      | some w => some w
      | none => if k = key then some v else none

/-- Python subscription `data[info]` on a parsed JSON document: a `KeyError`
on a missing key of an object, a `TypeError` on string subscription of any
other value. -/
def pyGetKey (j : Json) (k : String) : Except PyError Json :=
  match j with
  | .obj kvs =>
      match lookupKV kvs k with
      | some v => .ok v
      | none => .error (.keyError k)
  | _ => .error .typeError

def objKeys : Json → List String
  | .obj kvs => kvs.map Prod.fst
  | _ => []

def isObj : Json → Bool
  | .obj _ => true
  | _ => false

/-- First-seen-order deduplication, the column order pandas derives from a
list of records. -/
def dedupFirst (ks : List String) : List String :=
  ks.foldl (fun acc k => if k ∈ acc then acc else acc ++ [k]) []

/-- The union of keys observed across the row objects, in first-seen order. -/
def unionKeys (rows : List Json) : List String :=
  dedupFirst (rows.map objKeys).flatten

/-- The cell a record contributes to a column: `none` models NaN. -/
def cellOf (r : Json) (k : String) : Option Json :=
  match r with
  | .obj kvs => lookupKV kvs k
  | _ => none

/-- `pandas.DataFrame` applied to a manifest section value, modelled for the
exportable shape of the data contract: an array of row objects yields the
rectangular table over the union of their keys; any other shape is the
library-level conversion failure. -/
def pdDataFrame (x : Json) : Except PyError DataFrame :=
  match x with
  | .arr rows =>
      if rows.all isObj then
        .ok { columns := unionKeys rows
              rows := rows.map (fun r => (unionKeys rows).map (cellOf r)) }
      else .error .valueError
  | _ => .error .valueError

/-- `DataFrame.to_csv`: with `index := true` pandas prepends a row-number
column (blank header cell); with `index := false` the file holds exactly the
column header row and one data row per record. -/
def to_csv (df : DataFrame) (index : Bool) : Content :=
  if index then
    .csv ("" :: df.columns)
      (((List.range df.rows.length).zip df.rows).map
        (fun ir => some (Json.num ir.1) :: ir.2))
  else
    .csv df.columns df.rows

/-- The lookup-then-convert step `pd.DataFrame(data[info])`. -/
def toDataFrame (data : Json) (info : String) : Except PyError DataFrame := do
  let v ← pyGetKey data info
  pdDataFrame v

def contentJson : Content → Option Json
  | .file o => o
  | _ => none

/-- Opening a path with `utf-8-sig` decoding (a leading BOM is tolerated,
abstracted by the `Content` model) and parsing it with `json.load`: a
missing file raises `FileNotFoundError` carrying the path; text that is not
well-formed JSON raises `json.JSONDecodeError`, which carries no path. -/
def readManifest (fs : List (List String × Content)) (p : List String) :
    Except PyError Json :=
  match fsLookup fs p with
  | none => .error (.fileNotFound p)
  | some c =>
      match contentJson c with
      | some j => .ok j
      | none => .error .jsonDecodeError

/-- Whether opening and parsing the file at `p` succeeds. -/
def readsOk (fs : List (List String × Content)) (p : List String) : Bool :=
  match readManifest fs p with
  | .ok _ => true
  | .error _ => false

/-- The monadic form of `readManifest` on the current filesystem. -/
def openJson (p : List String) : M Json := fun st => (readManifest st.fs p, st)

/-- `zipfile.ZipFile(p, "r")`: a missing or non-zip file is fatal for the
container (`FileNotFoundError` / `BadZipFile`, the archive-open failure of
the error taxonomy). -/
def zipOpen (p : List String) : M (List (List String × Option Json)) := fun st =>
  match fsLookup st.fs p with
  | some (.archive es) => (.ok es, st)
  | _ => (.error (.archiveOpenError p), st)

/-- `ZipFile.extractall`: writes every entry under `base`, creating parent
directories, overwriting path-by-path (last write wins per entry). -/
def extractEntries (base : List String) :
    List (List String × Option Json) → M Unit
  | [] => pure ()
  | (rel, body) :: rest => do
      mkdirAll (base ++ rel).dropLast
      writeFile (base ++ rel) (.file body)
      extractEntries base rest

/-- The files `os.walk` finds under `dir` whose name ends in `.json`. -/
def jsonFilesUnder (fs : List (List String × Content)) (dir : List String) :
    List (List String) :=
  (fs.map Prod.fst).filter
    (fun p => dir.isPrefixOf p && pyEndsWith (p.getLastD "") ".json")

/-- The fail-fast pass of `extract_vpax`: every discovered JSON file is
opened and parsed and the parsed content is discarded; a decode failure
aborts the scan. -/
def scanJsonFiles : List (List String) → M Unit
  | [] => pure ()
  | p :: rest => do
      logMsg ("Reading JSON file: " ++ showPath p)
      let _ ← openJson p
      scanJsonFiles rest

/-- The unzip part of `extract_vpax` (lines 89-94): open the container and
extract its full contents into the extraction subdirectory. -/
def unzipPhase (vpax_file : VPath) : M Unit := do
  markExtractorRun vpax_file.filePath
  logMsg ("START - Extracting VPAX file: " ++ showPath vpax_file.filePath ++
    " to " ++ showPath (extractedDir vpax_file))
  let es ← zipOpen vpax_file.filePath
  mkdirAll (extractedDir vpax_file)
  extractEntries (extractedDir vpax_file) es
  logMsg ("Extracted VPAX contents to " ++ showPath (extractedDir vpax_file))

/-- `extract_vpax` (lines 80-103): unzip, then walk the extraction
subdirectory and parse every JSON file found there. -/
def extract_vpax (vpax_file : VPath) : M Unit := do
  unzipPhase vpax_file
  let fs ← getFs
  scanJsonFiles (jsonFilesUnder fs (extractedDir vpax_file))

/-- Lines 119-122 of `extract_infos`: the four-section default applies
exactly when no section list is supplied. -/
def resolveInfos (infosOpt : Option (List String)) : M (List String) :=
  match infosOpt with
  | none => do
      logMsg "Default infos to extract: [Measures, Tables, Columns, Relationships]"
      pure ["Measures", "Tables", "Columns", "Relationships"]
  | some l => pure l

/-- Lines 129-140 of `extract_infos`: the replace/reuse decision. -/
def ensureExtracted (vpax_file : VPath) (replace : Bool) : M Unit := do
  if replace then do
    logMsg "Replace extracted files from vpax"
    extract_vpax vpax_file
  else do
    let fs ← getFs
    if (fsLookup fs (pathToJson vpax_file)).isSome = false then do
      logMsg (showPath (pathToJson vpax_file) ++
        " not found. VPAX extraction will be initiated.")
      extract_vpax vpax_file
    else
      logMsg ("VPAX extraction already completed, JSON file found: " ++
        showPath (pathToJson vpax_file))

/-- Lines 117-140 of `extract_infos`: the start log, the section-list
resolution and the extraction decision, returning the requested sections. -/
def preStage (vpax_file : VPath) (replace : Bool)
    (infosOpt : Option (List String)) : M (List String) := do
  logMsg "START - Extracting DAX measures from VPAX source"
  let infos ← resolveInfos infosOpt
  ensureExtracted vpax_file replace
  pure infos

/-- Lines 142-153 of `extract_infos`: the manifest load with its
`try`/`except` that logs and re-raises `FileNotFoundError` and
`json.JSONDecodeError`. -/
def loadManifest (vpax_file : VPath) : M Json :=
  tryCatchM
    (do
      let d ← openJson (pathToJson vpax_file)
      logMsg ("Successfully read the JSON file: " ++
        showPath (pathToJson vpax_file))
      pure d)
    (fun e => do
      match e with
      | .fileNotFound _ =>
          logMsg ("File not found: " ++ showPath (pathToJson vpax_file))
      | .jsonDecodeError =>
          logMsg ("Error decoding JSON file: " ++
            showPath (pathToJson vpax_file))
      | _ => pure ()
      raiseErr e)

/-- One iteration of the export loop (lines 155-180): attempt the section,
convert it with the `try`/`except KeyError` that logs and re-raises, then
create the working directory and write the CSV without a row index.  The
source wraps the write in a `try` that logs and re-raises any exception;
writes in the filesystem model always succeed, so that handler is
unreachable here and is not modelled. -/
def exportOne (vpax_file : VPath) (data : Json) (info : String) : M Unit := do
  markAttempt info
  let df ← tryCatchM
    (do
      let df ← liftE (toDataFrame data info)
      logMsg ("Successfully converted " ++ info ++ " to DataFrame with " ++
        toString df.rows.length ++ " rows.")
      pure df)
    (fun e => do
      match e with
      | .keyError _ =>
          logMsg ("'" ++ info ++ "' key not found in the JSON file: " ++
            showPath (pathToJson vpax_file))
      | _ => pure ()
      raiseErr e)
  mkdirAll (workingDir vpax_file)
  writeFile (csvPath vpax_file info) (to_csv df false)
  logMsg ("Successfully exported " ++ info ++ " to CSV: " ++
    showPath (csvPath vpax_file info))
  logMsg "END - Successfully extracted and saved \x7binfo\x7d."

/-- The export loop over the requested sections, in order; an error raised
for one section aborts the remaining ones. -/
def exportSections (vpax_file : VPath) (data : Json) : List String → M Unit
  | [] => pure ()
  | info :: rest => do
      exportOne vpax_file data info
      exportSections vpax_file data rest

/-- `extract_infos` (lines 106-182): the pre-load stage, the manifest load,
the export loop and the final log line. -/
def extract_infos (vpax_file : VPath) (replace : Bool)
    (infosOpt : Option (List String)) : M Unit := do
  let infos ← preStage vpax_file replace infosOpt
  let data ← loadManifest vpax_file
  exportSections vpax_file data infos
  logMsg "END - Extracting informations from VPAX source"

/-- `setup_logging` (lines 65-77): create the working directory and add a
process-wide sink for `<parent>/<stem>/vpax.log`; no sink is ever removed. -/
def setup_logging (vpax_file : VPath) : M Unit := do
  mkdirAll (workingDir vpax_file)
  addSink (logFilePath vpax_file)

/-- `process_vpax_file` (lines 185-197). -/
def process_vpax_file (vpax_file : VPath) (replace : Bool) : M Unit := do
  setup_logging vpax_file
  extract_infos vpax_file replace none

/-- The body run for one container by the `process_folder` loop
(lines 235-241). -/
def perContainer (replace : Bool) (f : VPath) : M Unit := do
  logMsg ("Processing VPAX file: " ++ showPath f.filePath)
  setup_logging f
  extract_infos f replace none

/-- The per-file loop of `process_folder` (lines 235-241); the directory
existence check and the glob are CLI-surface collaborators outside the
core, so the discovered container list is a parameter. -/
def processFolderLoop (replace : Bool) : List VPath → M Unit
  | [] => pure ()
  | f :: rest => do
      perContainer replace f
      processFolderLoop replace rest

/-- A watchdog filesystem event: file creation, file modification, or any
other event (directory events included), as discriminated by the
`isinstance` checks of the handler. -/
inductive WEvent where
  | fileCreated (p : VPath)
  | fileModified (p : VPath)
  | otherEvent
deriving DecidableEq

/-- `VPAXEventHandler.on_modified` (lines 34-47): a modified `.vpax` file
triggers the full pipeline synchronously, with no error handling around it. -/
def on_modified (replace : Bool) (event : WEvent) : M Unit :=
  match event with
  | .fileModified p =>
      if pyEndsWith p.name ".vpax" then do
        logMsg ("Modified VPAX file detected: " ++ showPath p.filePath)
        process_vpax_file p replace
      else pure ()
  | _ => pure ()

/-- `VPAXEventHandler.on_created` (lines 49-62). -/
def on_created (replace : Bool) (event : WEvent) : M Unit :=
  match event with
  | .fileCreated p =>
      if pyEndsWith p.name ".vpax" then do
        logMsg ("New VPAX file detected: " ++ showPath p.filePath)
        process_vpax_file p replace
      else pure ()
  | _ => pure ()

/-! ### Machinery for reasoning about pipeline runs -/

theorem run_bind {α β : Type} (x : M α) (f : α → M β) (st : VState) :
    (x >>= f) st =
      match x st with
      | (.ok a, st₁) => f a st₁
      | (.error e, st₁) => (.error e, st₁) := rfl

theorem run_pure {α : Type} (a : α) (st : VState) :
    (pure a : M α) st = (.ok a, st) := rfl

theorem fsLookup_fsWrite (fs : List (List String × Content)) (p : List String)
    (c : Content) (q : List String) :
    fsLookup (fsWrite fs p c) q = if p = q then some c else fsLookup fs q := by
  induction fs with
  | nil =>
      by_cases h : p = q <;> simp [fsWrite, fsLookup, h]
  | cons hd tl ih =>
      obtain ⟨r, c₀⟩ := hd
      by_cases hrp : r = p
      · subst hrp
        by_cases hrq : r = q <;> simp [fsWrite, fsLookup, hrq]
      · by_cases hrq : r = q
        · subst hrq
          have hpq : ¬ p = r := fun h => hrp h.symm
          simp [fsWrite, fsLookup, hrp, hpq]
        · simp [fsWrite, fsLookup, hrp, hrq, ih]

theorem fsLookup_isSome_of_mem (fs : List (List String × Content))
    (p : List String) (h : p ∈ fs.map Prod.fst) : (fsLookup fs p).isSome := by
  induction fs with
  | nil => simp at h
  | cons hd tl ih =>
      obtain ⟨r, c₀⟩ := hd
      simp only [List.map_cons, List.mem_cons] at h
      by_cases hrp : r = p
      · simp [fsLookup, hrp]
      · rcases h with h | h
        · exact absurd h.symm hrp
        · simpa [fsLookup, hrp] using ih h

/-- The action does not change the given component of the state. -/
def Preserves {α β : Type} (proj : VState → β) (act : M α) : Prop :=
  ∀ st : VState, proj ((act st).2) = proj st

theorem preserves_bind {α β γ : Type} {proj : VState → γ} {x : M α}
    {f : α → M β} (hx : Preserves proj x) (hf : ∀ a, Preserves proj (f a)) :
    Preserves proj (x >>= f) := by
  intro st
  rw [run_bind]
  rcases hxs : x st with ⟨res, st₁⟩
  have h₁ : proj st₁ = proj st := by
    have h := hx st; rw [hxs] at h; exact h
  cases res with
  | ok a => exact (hf a st₁).trans h₁
  | error e => exact h₁

theorem preserves_seq {α β γ : Type} {proj : VState → γ} {x : M α} {y : M β}
    (hx : Preserves proj x) (hy : Preserves proj y) :
    Preserves proj (x >>= fun _ => y) :=
  preserves_bind hx (fun _ => hy)

theorem preserves_catch {α γ : Type} {proj : VState → γ} {x : M α}
    {h : PyError → M α} (hx : Preserves proj x)
    (hh : ∀ e, Preserves proj (h e)) : Preserves proj (tryCatchM x h) := by
  intro st
  unfold tryCatchM
  rcases hxs : x st with ⟨res, st₁⟩
  have h₁ : proj st₁ = proj st := by
    have hp := hx st; rw [hxs] at hp; exact hp
  cases res with
  | ok a => exact h₁
  | error e => exact (hh e st₁).trans h₁

theorem preserves_ite {α γ : Type} {proj : VState → γ} (c : Prop)
    [Decidable c] {x y : M α} (hx : Preserves proj x) (hy : Preserves proj y) :
    Preserves proj (if c then x else y) := by
  by_cases h : c
  · rw [if_pos h]; exact hx
  · rw [if_neg h]; exact hy

theorem preserves_zipOpen {β : Type} (proj : VState → β) (p : List String) :
    Preserves proj (zipOpen p) := by
  intro st
  unfold zipOpen
  split <;> rfl

theorem preserves_liftE {α β : Type} (proj : VState → β)
    (r : Except PyError α) : Preserves proj (liftE r) := fun _ => rfl

/-! Projection shorthands. -/

def runsOf (s : VState) : List (List String) := s.extractorRuns

def attemptedOf (s : VState) : List String := s.attempted

def fsOf (s : VState) : List (List String × Content) := s.fs

theorem runs_logMsg (m : String) : Preserves runsOf (logMsg m) := fun _ => rfl

theorem runs_mkdirAll (d : List String) : Preserves runsOf (mkdirAll d) :=
  fun _ => rfl

theorem runs_writeFile (p : List String) (c : Content) :
    Preserves runsOf (writeFile p c) := fun _ => rfl

theorem runs_getFs : Preserves runsOf getFs := fun _ => rfl

theorem runs_openJson (p : List String) : Preserves runsOf (openJson p) :=
  fun _ => rfl

theorem runs_markAttempt (i : String) : Preserves runsOf (markAttempt i) :=
  fun _ => rfl

theorem runs_addSink (p : List String) : Preserves runsOf (addSink p) :=
  fun _ => rfl

theorem runs_raiseErr {α : Type} (e : PyError) :
    Preserves runsOf (raiseErr (α := α) e) := fun _ => rfl

theorem runs_pure {α : Type} (a : α) : Preserves runsOf (pure a : M α) :=
  fun _ => rfl

theorem att_logMsg (m : String) : Preserves attemptedOf (logMsg m) :=
  fun _ => rfl

theorem att_mkdirAll (d : List String) : Preserves attemptedOf (mkdirAll d) :=
  fun _ => rfl

theorem att_writeFile (p : List String) (c : Content) :
    Preserves attemptedOf (writeFile p c) := fun _ => rfl

theorem att_getFs : Preserves attemptedOf getFs := fun _ => rfl

theorem att_openJson (p : List String) : Preserves attemptedOf (openJson p) :=
  fun _ => rfl

theorem att_markExtractorRun (p : List String) :
    Preserves attemptedOf (markExtractorRun p) := fun _ => rfl

theorem att_addSink (p : List String) : Preserves attemptedOf (addSink p) :=
  fun _ => rfl

theorem att_raiseErr {α : Type} (e : PyError) :
    Preserves attemptedOf (raiseErr (α := α) e) := fun _ => rfl

theorem att_pure {α : Type} (a : α) : Preserves attemptedOf (pure a : M α) :=
  fun _ => rfl

theorem fs_logMsg (m : String) : Preserves fsOf (logMsg m) := fun _ => rfl

theorem fs_mkdirAll (d : List String) : Preserves fsOf (mkdirAll d) :=
  fun _ => rfl

theorem fs_getFs : Preserves fsOf getFs := fun _ => rfl

theorem fs_openJson (p : List String) : Preserves fsOf (openJson p) :=
  fun _ => rfl

theorem fs_markExtractorRun (p : List String) :
    Preserves fsOf (markExtractorRun p) := fun _ => rfl

theorem fs_markAttempt (i : String) : Preserves fsOf (markAttempt i) :=
  fun _ => rfl

theorem fs_addSink (p : List String) : Preserves fsOf (addSink p) :=
  fun _ => rfl

theorem fs_raiseErr {α : Type} (e : PyError) :
    Preserves fsOf (raiseErr (α := α) e) := fun _ => rfl

theorem fs_pure {α : Type} (a : α) : Preserves fsOf (pure a : M α) :=
  fun _ => rfl

theorem run_logMsg (m : String) (st : VState) :
    logMsg m st =
      (.ok (), { st with msgLog := st.msgLog ++ [(st.sinks, m)] }) := rfl

theorem run_getFs (st : VState) : getFs st = (.ok st.fs, st) := rfl

theorem run_markExtractorRun (p : List String) (st : VState) :
    markExtractorRun p st =
      (.ok (), { st with extractorRuns := st.extractorRuns ++ [p] }) := rfl

theorem run_markAttempt (i : String) (st : VState) :
    markAttempt i st =
      (.ok (), { st with attempted := st.attempted ++ [i] }) := rfl

theorem run_mkdirAll (d : List String) (st : VState) :
    mkdirAll d st = (.ok (), { st with dirs := st.dirs ++ prefixesOf d }) := rfl

theorem run_writeFile (p : List String) (c : Content) (st : VState) :
    writeFile p c st = (.ok (), { st with fs := fsWrite st.fs p c }) := rfl

theorem run_addSink (p : List String) (st : VState) :
    addSink p st = (.ok (), { st with sinks := st.sinks ++ [p] }) := rfl

theorem run_liftE {α : Type} (r : Except PyError α) (st : VState) :
    liftE r st = (r, st) := rfl

theorem run_openJson (p : List String) (st : VState) :
    openJson p st = (readManifest st.fs p, st) := rfl

theorem resolveInfos_eq (iOpt : Option (List String)) (st : VState) :
    resolveInfos iOpt st =
      (.ok (iOpt.getD ["Measures", "Tables", "Columns", "Relationships"]),
        match iOpt with
        | none => { st with msgLog := st.msgLog ++
            [(st.sinks,
              "Default infos to extract: [Measures, Tables, Columns, Relationships]")] }
        | some _ => st) := by
  cases iOpt <;> rfl

/-! Composite preservation facts. -/

theorem runs_extractEntries (base : List String)
    (es : List (List String × Option Json)) :
    Preserves runsOf (extractEntries base es) := by
  induction es with
  | nil => exact runs_pure ()
  | cons e rest ih =>
      obtain ⟨rel, body⟩ := e
      simp only [extractEntries]
      exact preserves_seq (runs_mkdirAll _)
        (preserves_seq (runs_writeFile _ _) ih)

theorem runs_scanJsonFiles (ps : List (List String)) :
    Preserves runsOf (scanJsonFiles ps) := by
  induction ps with
  | nil => exact runs_pure ()
  | cons p rest ih =>
      simp only [scanJsonFiles]
      exact preserves_seq (runs_logMsg _)
        (preserves_bind (runs_openJson p) (fun _ => ih))

theorem runs_loadManifest (f : VPath) : Preserves runsOf (loadManifest f) := by
  unfold loadManifest
  refine preserves_catch ?_ ?_
  · exact preserves_bind (runs_openJson _)
      (fun d => preserves_seq (runs_logMsg _) (runs_pure d))
  · intro e
    cases e <;>
      first
        | exact preserves_seq (runs_logMsg _) (runs_raiseErr _)
        | exact preserves_seq (runs_pure ()) (runs_raiseErr _)

theorem runs_exportOne (f : VPath) (data : Json) (info : String) :
    Preserves runsOf (exportOne f data info) := by
  unfold exportOne
  refine preserves_seq (runs_markAttempt _) (preserves_bind ?_ (fun df => ?_))
  · refine preserves_catch ?_ ?_
    · exact preserves_bind (preserves_liftE runsOf _)
        (fun df => preserves_seq (runs_logMsg _) (runs_pure df))
    · intro e
      cases e <;>
        first
          | exact preserves_seq (runs_logMsg _) (runs_raiseErr _)
          | exact preserves_seq (runs_pure ()) (runs_raiseErr _)
  · exact preserves_seq (runs_mkdirAll _) (preserves_seq (runs_writeFile _ _)
      (preserves_seq (runs_logMsg _) (runs_logMsg _)))

theorem runs_exportSections (f : VPath) (data : Json) (infos : List String) :
    Preserves runsOf (exportSections f data infos) := by
  induction infos with
  | nil => exact runs_pure ()
  | cons i rest ih =>
      simp only [exportSections]
      exact preserves_seq (runs_exportOne f data i) ih

theorem att_extractEntries (base : List String)
    (es : List (List String × Option Json)) :
    Preserves attemptedOf (extractEntries base es) := by
  induction es with
  | nil => exact att_pure ()
  | cons e rest ih =>
      obtain ⟨rel, body⟩ := e
      simp only [extractEntries]
      exact preserves_seq (att_mkdirAll _) (preserves_seq (att_writeFile _ _) ih)

theorem att_scanJsonFiles (ps : List (List String)) :
    Preserves attemptedOf (scanJsonFiles ps) := by
  induction ps with
  | nil => exact att_pure ()
  | cons p rest ih =>
      simp only [scanJsonFiles]
      exact preserves_seq (att_logMsg _)
        (preserves_bind (att_openJson p) (fun _ => ih))

theorem att_unzipPhase (f : VPath) : Preserves attemptedOf (unzipPhase f) := by
  unfold unzipPhase
  exact preserves_seq (att_markExtractorRun _) (preserves_seq (att_logMsg _)
    (preserves_bind (preserves_zipOpen attemptedOf _)
      (fun es => preserves_seq (att_mkdirAll _)
        (preserves_seq (att_extractEntries _ es) (att_logMsg _)))))

theorem att_extract_vpax (f : VPath) : Preserves attemptedOf (extract_vpax f) := by
  unfold extract_vpax
  exact preserves_seq (att_unzipPhase f)
    (preserves_bind att_getFs (fun fs => att_scanJsonFiles _))

theorem att_resolveInfos (iOpt : Option (List String)) :
    Preserves attemptedOf (resolveInfos iOpt) := by
  cases iOpt with
  | none => exact preserves_seq (att_logMsg _) (att_pure _)
  | some l => exact att_pure l

theorem att_ensureExtracted (f : VPath) (r : Bool) :
    Preserves attemptedOf (ensureExtracted f r) := by
  unfold ensureExtracted
  refine preserves_ite _ ?_ ?_
  · exact preserves_seq (att_logMsg _) (att_extract_vpax f)
  · refine preserves_bind att_getFs (fun fs => preserves_ite _ ?_ ?_)
    · exact preserves_seq (att_logMsg _) (att_extract_vpax f)
    · exact att_logMsg _

theorem att_preStage (f : VPath) (r : Bool) (iOpt : Option (List String)) :
    Preserves attemptedOf (preStage f r iOpt) := by
  unfold preStage
  exact preserves_seq (att_logMsg _) (preserves_bind (att_resolveInfos iOpt)
    (fun infos => preserves_seq (att_ensureExtracted f r) (att_pure infos)))

theorem att_loadManifest (f : VPath) : Preserves attemptedOf (loadManifest f) := by
  unfold loadManifest
  refine preserves_catch ?_ ?_
  · exact preserves_bind (att_openJson _)
      (fun d => preserves_seq (att_logMsg _) (att_pure d))
  · intro e
    cases e <;>
      first
        | exact preserves_seq (att_logMsg _) (att_raiseErr _)
        | exact preserves_seq (att_pure ()) (att_raiseErr _)

theorem fs_scanJsonFiles (ps : List (List String)) :
    Preserves fsOf (scanJsonFiles ps) := by
  induction ps with
  | nil => exact fs_pure ()
  | cons p rest ih =>
      simp only [scanJsonFiles]
      exact preserves_seq (fs_logMsg _)
        (preserves_bind (fs_openJson p) (fun _ => ih))

theorem fs_loadManifest (f : VPath) : Preserves fsOf (loadManifest f) := by
  unfold loadManifest
  refine preserves_catch ?_ ?_
  · exact preserves_bind (fs_openJson _)
      (fun d => preserves_seq (fs_logMsg _) (fs_pure d))
  · intro e
    cases e <;>
      first
        | exact preserves_seq (fs_logMsg _) (fs_raiseErr _)
        | exact preserves_seq (fs_pure ()) (fs_raiseErr _)

theorem fs_resolveInfos (iOpt : Option (List String)) :
    Preserves fsOf (resolveInfos iOpt) := by
  cases iOpt with
  | none => exact preserves_seq (fs_logMsg _) (fs_pure _)
  | some l => exact fs_pure l

/-! Path disjointness facts. -/

theorem csvName_ne_output_dir (s i : String) : csvName s i ≠ output_dir := by
  intro h
  have hd : (csvName s i).data = output_dir.data := by rw [h]
  have hsp : (' ' : Char) ∈ (csvName s i).data := by
    unfold csvName
    rw [String.data_append, String.data_append, String.data_append]
    refine List.mem_append.mpr (.inl (List.mem_append.mpr (.inl ?_)))
    refine List.mem_append.mpr (.inr ?_)
    decide
  rw [hd] at hsp
  revert hsp
  decide

theorem csv_not_under_extracted (f : VPath) (i : String) :
    ¬ (extractedDir f <+: csvPath f i) := by
  intro h
  have hlen : (extractedDir f).length = (csvPath f i).length := by
    simp [extractedDir, csvPath, workingDir]
  have heq : extractedDir f = csvPath f i :=
    h.sublist.eq_of_length hlen
  unfold extractedDir csvPath at heq
  have := (List.append_right_inj (workingDir f)).mp heq
  have : output_dir = csvName f.stem i := by simpa using this
  exact csvName_ne_output_dir f.stem i this.symm

theorem csvName_inj (s a b : String) (h : csvName s a = csvName s b) : a = b := by
  unfold csvName at h
  have hd : (s ++ " - ").data ++ (a.data ++ ".csv".data) =
      (s ++ " - ").data ++ (b.data ++ ".csv".data) := by
    have h' : ((s ++ " - " ++ a) ++ ".csv").data =
        ((s ++ " - " ++ b) ++ ".csv").data := by
      rw [show s ++ " - " ++ a ++ ".csv" = (s ++ " - " ++ a) ++ ".csv" from rfl] at h
      rw [show s ++ " - " ++ b ++ ".csv" = (s ++ " - " ++ b) ++ ".csv" from rfl] at h
      rw [h]
    simpa [String.data_append, List.append_assoc] using h'
  have hab : a.data ++ ".csv".data = b.data ++ ".csv".data :=
    (List.append_right_inj _).mp hd
  have : a.data = b.data := by
    have hlen : (".csv".data).length = (".csv".data).length := rfl
    exact List.append_inj_left hab
      (by
        have := congrArg List.length hab
        simp at this
        exact this)
  exact String.ext this

theorem csvPath_inj (f : VPath) (a b : String) (h : csvPath f a = csvPath f b) :
    a = b := by
  unfold csvPath at h
  have := (List.append_right_inj (workingDir f)).mp h
  exact csvName_inj f.stem a b (by simpa using this)

/-! Extractor-run characterizations (the replace/reuse decision). -/

theorem runs_unzipPhase (f : VPath) (st : VState) :
    runsOf ((unzipPhase f st).2) = st.extractorRuns ++ [f.filePath] := by
  unfold unzipPhase
  rw [run_bind, run_markExtractorRun]
  exact (preserves_seq (runs_logMsg _)
    (preserves_bind (preserves_zipOpen runsOf _) (fun es =>
      preserves_seq (runs_mkdirAll _)
        (preserves_seq (runs_extractEntries _ es) (runs_logMsg _))))) _

theorem runs_extract_vpax (f : VPath) (st : VState) :
    runsOf ((extract_vpax f st).2) = st.extractorRuns ++ [f.filePath] := by
  unfold extract_vpax
  rw [run_bind]
  rcases hu : unzipPhase f st with ⟨res, st₁⟩
  have h₁ : runsOf st₁ = st.extractorRuns ++ [f.filePath] := by
    have h := runs_unzipPhase f st; rw [hu] at h; exact h
  cases res with
  | ok a =>
      exact ((preserves_bind runs_getFs (fun fs => runs_scanJsonFiles _)) st₁).trans h₁
  | error e => exact h₁

theorem runs_ensureExtracted (f : VPath) (r : Bool) (st : VState) :
    runsOf ((ensureExtracted f r st).2) =
      if r then st.extractorRuns ++ [f.filePath]
      else if (fsLookup st.fs (pathToJson f)).isSome then st.extractorRuns
      else st.extractorRuns ++ [f.filePath] := by
  cases r with
  | true =>
      have hdef : ensureExtracted f true st =
          ((logMsg "Replace extracted files from vpax") >>= fun _ =>
            extract_vpax f) st := rfl
      rw [hdef, run_bind, run_logMsg]
      exact runs_extract_vpax f _
  | false =>
      have hdef : ensureExtracted f false st =
          (getFs >>= fun fs =>
            if (fsLookup fs (pathToJson f)).isSome = false then
              (logMsg (showPath (pathToJson f) ++
                " not found. VPAX extraction will be initiated.")) >>= fun _ =>
                extract_vpax f
            else
              logMsg ("VPAX extraction already completed, JSON file found: " ++
                showPath (pathToJson f))) st := rfl
      rw [hdef, run_bind, run_getFs]
      cases hp : (fsLookup st.fs (pathToJson f)).isSome with
      | true => simp [hp, run_logMsg, runsOf]
      | false =>
          simp only [hp]
          rw [if_pos trivial, run_bind, run_logMsg]
          simpa using runs_extract_vpax f _

theorem snd_bind_pure {α β : Type} (x : M α) (v : β) (st : VState) :
    ((x >>= fun _ => pure v) st).2 = (x st).2 := by
  rw [run_bind]
  rcases x st with ⟨res, st₁⟩
  cases res <;> rfl

theorem preStage_none_eq (f : VPath) (r : Bool) (st : VState) :
    preStage f r none st =
      (ensureExtracted f r >>= fun _ =>
        pure ["Measures", "Tables", "Columns", "Relationships"])
      { st with msgLog :=
          (st.msgLog ++
            [(st.sinks, "START - Extracting DAX measures from VPAX source")]) ++
          [(st.sinks,
            "Default infos to extract: [Measures, Tables, Columns, Relationships]")] } :=
  rfl

theorem preStage_some_eq (f : VPath) (r : Bool) (l : List String) (st : VState) :
    preStage f r (some l) st =
      (ensureExtracted f r >>= fun _ => pure l)
      { st with msgLog := st.msgLog ++
          [(st.sinks, "START - Extracting DAX measures from VPAX source")] } :=
  rfl

theorem runs_preStage (f : VPath) (r : Bool) (iOpt : Option (List String))
    (st : VState) :
    runsOf ((preStage f r iOpt st).2) =
      if r then st.extractorRuns ++ [f.filePath]
      else if (fsLookup st.fs (pathToJson f)).isSome then st.extractorRuns
      else st.extractorRuns ++ [f.filePath] := by
  cases iOpt with
  | none =>
      rw [preStage_none_eq, snd_bind_pure]
      exact runs_ensureExtracted f r _
  | some l =>
      rw [preStage_some_eq, snd_bind_pure]
      exact runs_ensureExtracted f r _

theorem runs_extract_infos (f : VPath) (r : Bool) (iOpt : Option (List String))
    (st : VState) :
    runsOf ((extract_infos f r iOpt st).2) =
      if r then st.extractorRuns ++ [f.filePath]
      else if (fsLookup st.fs (pathToJson f)).isSome then st.extractorRuns
      else st.extractorRuns ++ [f.filePath] := by
  unfold extract_infos
  rw [run_bind]
  rcases hps : preStage f r iOpt st with ⟨res, st₁⟩
  have h₁ : runsOf st₁ =
      (if r then st.extractorRuns ++ [f.filePath]
       else if (fsLookup st.fs (pathToJson f)).isSome then st.extractorRuns
       else st.extractorRuns ++ [f.filePath]) := by
    have h := runs_preStage f r iOpt st; rw [hps] at h; exact h
  cases res with
  | error e => exact h₁
  | ok infos =>
      exact ((preserves_bind (runs_loadManifest f) (fun data =>
        preserves_seq (runs_exportSections f data infos)
          (runs_logMsg _))) st₁).trans h₁

/-! Filesystem frame machinery. -/

/-- Every filesystem location the action can change satisfies `P`. -/
def FsTouches {α : Type} (act : M α) (P : List String → Prop) : Prop :=
  ∀ (st : VState) (q : List String), ¬ P q →
    fsLookup ((act st).2).fs q = fsLookup st.fs q

theorem ft_of_keepsFs {α : Type} {act : M α} (h : Preserves fsOf act)
    (P : List String → Prop) : FsTouches act P := by
  intro st q _
  rw [show ((act st).2).fs = st.fs from h st]

theorem ft_mono {α : Type} {act : M α} {P Q : List String → Prop}
    (h : FsTouches act P) (hpq : ∀ q, P q → Q q) : FsTouches act Q :=
  fun st q hq => h st q (fun hp => hq (hpq q hp))

theorem ft_bind {α β : Type} {x : M α} {f : α → M β}
    {P : List String → Prop} (hx : FsTouches x P)
    (hf : ∀ a, FsTouches (f a) P) : FsTouches (x >>= f) P := by
  intro st q hq
  rw [run_bind]
  rcases hxs : x st with ⟨res, st₁⟩
  have h₁ : fsLookup st₁.fs q = fsLookup st.fs q := by
    have h := hx st q hq; rw [hxs] at h; exact h
  cases res with
  | ok a => exact ((hf a) st₁ q hq).trans h₁
  | error e => exact h₁

theorem ft_seq {α β : Type} {x : M α} {y : M β} {P : List String → Prop}
    (hx : FsTouches x P) (hy : FsTouches y P) :
    FsTouches (x >>= fun _ => y) P :=
  ft_bind hx (fun _ => hy)

theorem ft_catch {α : Type} {x : M α} {h : PyError → M α}
    {P : List String → Prop} (hx : FsTouches x P)
    (hh : ∀ e, FsTouches (h e) P) : FsTouches (tryCatchM x h) P := by
  intro st q hq
  unfold tryCatchM
  rcases hxs : x st with ⟨res, st₁⟩
  have h₁ : fsLookup st₁.fs q = fsLookup st.fs q := by
    have hp := hx st q hq; rw [hxs] at hp; exact hp
  cases res with
  | ok a => exact h₁
  | error e => exact ((hh e) st₁ q hq).trans h₁

theorem ft_ite {α : Type} (c : Prop) [Decidable c] {x y : M α}
    {P : List String → Prop} (hx : FsTouches x P) (hy : FsTouches y P) :
    FsTouches (if c then x else y) P := by
  by_cases h : c
  · rw [if_pos h]; exact hx
  · rw [if_neg h]; exact hy

theorem ft_writeFile (p : List String) (c : Content) {P : List String → Prop}
    (hp : P p) : FsTouches (writeFile p c) P := by
  intro st q hq
  rw [run_writeFile]
  show fsLookup (fsWrite st.fs p c) q = fsLookup st.fs q
  rw [fsLookup_fsWrite]
  rw [if_neg]
  intro hpq
  exact hq (hpq ▸ hp)

theorem ft_extractEntries (base : List String)
    (es : List (List String × Option Json)) :
    FsTouches (extractEntries base es) (fun q => base <+: q) := by
  induction es with
  | nil => exact ft_of_keepsFs (fs_pure ()) _
  | cons e rest ih =>
      obtain ⟨rel, body⟩ := e
      simp only [extractEntries]
      refine ft_seq (ft_of_keepsFs (fs_mkdirAll _) _)
        (ft_seq (ft_writeFile _ _ ?_) ih)
      exact List.prefix_append base rel

theorem ft_extract_vpax (f : VPath) :
    FsTouches (extract_vpax f) (fun q => extractedDir f <+: q) := by
  unfold extract_vpax unzipPhase
  refine ft_seq ?_ (ft_bind
    (ft_of_keepsFs fs_getFs _)
    (fun fs => ft_of_keepsFs (fs_scanJsonFiles _) _))
  refine ft_seq (ft_of_keepsFs (fs_markExtractorRun _) _)
    (ft_seq (ft_of_keepsFs (fs_logMsg _) _)
      (ft_bind (ft_of_keepsFs (preserves_zipOpen fsOf _) _)
        (fun es => ft_seq (ft_of_keepsFs (fs_mkdirAll _) _)
          (ft_seq (ft_extractEntries _ es)
            (ft_of_keepsFs (fs_logMsg _) _)))))

theorem ft_exportOne (f : VPath) (data : Json) (info : String) :
    FsTouches (exportOne f data info) (fun q => q = csvPath f info) := by
  unfold exportOne
  refine ft_seq (ft_of_keepsFs (fs_markAttempt _) _)
    (ft_bind ?_ (fun df => ?_))
  · refine ft_catch ?_ ?_
    · exact ft_of_keepsFs (preserves_bind (preserves_liftE fsOf _)
        (fun d => preserves_seq (fs_logMsg _) (fs_pure d))) _
    · intro e
      cases e <;>
        first
          | exact ft_of_keepsFs
              (preserves_seq (fs_logMsg _) (fs_raiseErr _)) _
          | exact ft_of_keepsFs
              (preserves_seq (fs_pure ()) (fs_raiseErr _)) _
  · refine ft_seq (ft_of_keepsFs (fs_mkdirAll _) _)
      (ft_seq (ft_writeFile _ _ rfl)
        (ft_seq (ft_of_keepsFs (fs_logMsg _) _)
          (ft_of_keepsFs (fs_logMsg _) _)))

theorem ft_exportSections (f : VPath) (data : Json) (infos : List String) :
    FsTouches (exportSections f data infos)
      (fun q => ∃ i ∈ infos, q = csvPath f i) := by
  induction infos with
  | nil => exact ft_of_keepsFs (fs_pure ()) _
  | cons i rest ih =>
      simp only [exportSections]
      refine ft_seq (ft_mono (ft_exportOne f data i) ?_) (ft_mono ih ?_)
      · intro q hq
        exact ⟨i, by simp, hq⟩
      · intro q hq
        rcases hq with ⟨j, hj, hq⟩
        exact ⟨j, by simp [hj], hq⟩

theorem ft_ensureExtracted (f : VPath) (r : Bool) :
    FsTouches (ensureExtracted f r) (fun q => extractedDir f <+: q) := by
  unfold ensureExtracted
  refine ft_ite _ ?_ ?_
  · exact ft_seq (ft_of_keepsFs (fs_logMsg _) _) (ft_extract_vpax f)
  · refine ft_bind (ft_of_keepsFs fs_getFs _)
      (fun fs => ft_ite _ ?_ ?_)
    · exact ft_seq (ft_of_keepsFs (fs_logMsg _) _)
        (ft_extract_vpax f)
    · exact ft_of_keepsFs (fs_logMsg _) _

theorem ft_preStage (f : VPath) (r : Bool) (iOpt : Option (List String)) :
    FsTouches (preStage f r iOpt) (fun q => extractedDir f <+: q) := by
  unfold preStage
  refine ft_seq (ft_of_keepsFs (fs_logMsg _) _)
    (ft_bind (ft_of_keepsFs (fs_resolveInfos iOpt) _)
      (fun infos => ft_seq (ft_ensureExtracted f r)
        (ft_of_keepsFs (fs_pure infos) _)))

theorem ft_extract_infos (f : VPath) (r : Bool) (iOpt : Option (List String)) :
    FsTouches (extract_infos f r iOpt)
      (fun q => extractedDir f <+: q ∨ ∃ i, q = csvPath f i) := by
  unfold extract_infos
  refine ft_bind (ft_mono (ft_preStage f r iOpt) (fun q h => .inl h))
    (fun infos => ft_bind
      (ft_of_keepsFs (fs_loadManifest f) _)
      (fun data => ft_seq
        ((ft_mono (ft_exportSections f data infos) ?_))
        (ft_of_keepsFs (fs_logMsg _) _)))
  intro q hq
  rcases hq with ⟨i, _, hq⟩
  exact .inr ⟨i, hq⟩

theorem ensureExtracted_present_eq (f : VPath) (st : VState)
    (h : (fsLookup st.fs (pathToJson f)).isSome = true) :
    ensureExtracted f false st =
      (.ok (), { st with msgLog := st.msgLog ++
        [(st.sinks, "VPAX extraction already completed, JSON file found: " ++
          showPath (pathToJson f))] }) := by
  have hdef : ensureExtracted f false st =
      (getFs >>= fun fs =>
        if (fsLookup fs (pathToJson f)).isSome = false then
          (logMsg (showPath (pathToJson f) ++
            " not found. VPAX extraction will be initiated.")) >>= fun _ =>
            extract_vpax f
        else
          logMsg ("VPAX extraction already completed, JSON file found: " ++
            showPath (pathToJson f))) st := rfl
  rw [hdef, run_bind, run_getFs]
  simp [h, run_logMsg]

theorem fs_ensureExtracted_present (f : VPath) (st : VState)
    (h : (fsLookup st.fs (pathToJson f)).isSome = true) :
    ((ensureExtracted f false st).2).fs = st.fs := by
  rw [ensureExtracted_present_eq f st h]

theorem fs_preStage_present (f : VPath) (iOpt : Option (List String))
    (st : VState) (h : (fsLookup st.fs (pathToJson f)).isSome = true) :
    ((preStage f false iOpt st).2).fs = st.fs := by
  cases iOpt with
  | none =>
      rw [preStage_none_eq, snd_bind_pure]
      exact fs_ensureExtracted_present f _ h
  | some l =>
      rw [preStage_some_eq, snd_bind_pure]
      exact fs_ensureExtracted_present f _ h

/-- C1: for every container file, the extraction decision of the
orchestrator follows the replace/reuse policy.  With `replace = true` the
Archive Extractor is re-invoked exactly once regardless of prior state; with
`replace = false` it is re-invoked exactly when the manifest file
`<working>/extracted/DaxVpaView.json` is absent; otherwise extraction is
skipped entirely — the extractor is not invoked and every path inside the
extraction subdirectory is left untouched, so the run proceeds with the
existing extracted manifest. -/
theorem c1_extraction_policy (f : VPath) (r : Bool)
    (iOpt : Option (List String)) (st : VState) :
    (((extract_infos f r iOpt st).2).extractorRuns =
      if r then st.extractorRuns ++ [f.filePath]
      else if (fsLookup st.fs (pathToJson f)).isSome then st.extractorRuns
      else st.extractorRuns ++ [f.filePath])
    ∧ (r = false → (fsLookup st.fs (pathToJson f)).isSome = true →
        ∀ q : List String, extractedDir f <+: q →
          fsLookup ((extract_infos f r iOpt st).2).fs q =
            fsLookup st.fs q) := by
  constructor
  · exact runs_extract_infos f r iOpt st
  · rintro rfl hp q hq
    unfold extract_infos
    rw [run_bind]
    rcases hps : preStage f false iOpt st with ⟨res, st₁⟩
    have hfs₁ : st₁.fs = st.fs := by
      have h := fs_preStage_present f iOpt st hp; rw [hps] at h; exact h
    cases res with
    | error e => rw [hfs₁]
    | ok infos =>
        have hrest : FsTouches (loadManifest f >>= fun data =>
            exportSections f data infos >>= fun _ =>
            logMsg "END - Extracting informations from VPAX source")
            (fun p => ∃ i, p = csvPath f i) := by
          refine ft_bind (ft_of_keepsFs (fs_loadManifest f) _)
            (fun data => ft_seq
              (ft_mono (ft_exportSections f data infos) ?_)
              (ft_of_keepsFs (fs_logMsg _) _))
          rintro p ⟨i, _, hpi⟩
          exact ⟨i, hpi⟩
        have hql : ¬ ∃ i, q = csvPath f i := by
          rintro ⟨i, rfl⟩
          exact csv_not_under_extracted f i hq
        exact (hrest st₁ q hql).trans (by rw [hfs₁])

def wC1f : VPath := ⟨["D"], "Sales.vpax"⟩

def wC1st : VState :=
  ⟨[(pathToJson wC1f, .file (some (.obj [])))], [], [], [], [], []⟩

theorem c1_extraction_policy_witness :
    ((extract_infos wC1f false none wC1st).2).extractorRuns = [] ∧
    fsLookup ((extract_infos wC1f false none wC1st).2).fs (pathToJson wC1f) =
      fsLookup wC1st.fs (pathToJson wC1f) := by
  have h := c1_extraction_policy wC1f false none wC1st
  refine ⟨?_, h.2 rfl rfl (pathToJson wC1f) (List.prefix_append _ _)⟩
  rw [h.1]
  rfl

theorem run_bind_ok {α β : Type} {x : M α} {f : α → M β} {st : VState}
    {a : α} {st₁ : VState} (h : x st = (.ok a, st₁)) :
    (x >>= f) st = f a st₁ := by
  rw [run_bind, h]

theorem run_bind_error {α β : Type} {x : M α} {f : α → M β} {st : VState}
    {e : PyError} {st₁ : VState} (h : x st = (.error e, st₁)) :
    (x >>= f) st = (.error e, st₁) := by
  rw [run_bind, h]

theorem readManifest_error_cases (fs : List (List String × Content))
    (p : List String) (e : PyError) (h : readManifest fs p = .error e) :
    e = .fileNotFound p ∨ e = .jsonDecodeError := by
  unfold readManifest at h
  rcases hl : fsLookup fs p with _ | c
  · rw [hl] at h
    simp at h
    exact .inl h.symm
  · rw [hl] at h
    simp only [Option.some.injEq] at h
    rcases hc : contentJson c with _ | j
    · rw [hc] at h
      simp at h
      exact .inr h.symm
    · rw [hc] at h
      simp at h

theorem loadManifest_error (f : VPath) (st : VState) (e : PyError)
    (h : readManifest st.fs (pathToJson f) = .error e) :
    (loadManifest f st).1 = .error e ∧ ((loadManifest f st).2).fs = st.fs ∧
      ((loadManifest f st).2).attempted = st.attempted ∧
      ((loadManifest f st).2).extractorRuns = st.extractorRuns := by
  have hcases := readManifest_error_cases st.fs (pathToJson f) e h
  have hbody : (openJson (pathToJson f) >>= fun d =>
      logMsg ("Successfully read the JSON file: " ++
        showPath (pathToJson f)) >>= fun _ => pure d) st = (.error e, st) :=
    run_bind_error (by rw [run_openJson, h])
  unfold loadManifest tryCatchM
  rw [hbody]
  rcases hcases with rfl | rfl
  · exact ⟨rfl, rfl, rfl, rfl⟩
  · exact ⟨rfl, rfl, rfl, rfl⟩

/-- C2: for every container file whose manifest load fails after the
extraction decision — the manifest file is absent (`FileNotFoundError`) or
its content is not well-formed JSON (`json.JSONDecodeError`) — processing
of the container raises that error; no section export is attempted and no
CSV file is written for any section. -/
theorem c2_load_failure (f : VPath) (r : Bool) (iOpt : Option (List String))
    (st : VState) (infos : List String) (e : PyError)
    (hpre : (preStage f r iOpt st).1 = .ok infos)
    (hload : readManifest ((preStage f r iOpt st).2).fs (pathToJson f) =
      .error e) :
    (extract_infos f r iOpt st).1 = .error e ∧
    (e = .fileNotFound (pathToJson f) ∨ e = .jsonDecodeError) ∧
    ((extract_infos f r iOpt st).2).attempted = st.attempted ∧
    ∀ info : String,
      fsLookup ((extract_infos f r iOpt st).2).fs (csvPath f info) =
        fsLookup st.fs (csvPath f info) := by
  rcases hps : preStage f r iOpt st with ⟨res, st₁⟩
  have hres : res = .ok infos := by
    have h := hpre; rw [hps] at h; exact h
  subst hres
  have hload₁ : readManifest st₁.fs (pathToJson f) = .error e := by
    have h := hload; rw [hps] at h; exact h
  have hatt₁ : st₁.attempted = st.attempted := by
    have h := att_preStage f r iOpt st; rw [hps] at h; exact h
  have hei : extract_infos f r iOpt st =
      (loadManifest f >>= fun data =>
        exportSections f data infos >>= fun _ =>
        logMsg "END - Extracting informations from VPAX source") st₁ :=
    run_bind_ok hps
  rcases hlm : loadManifest f st₁ with ⟨lres, st₂⟩
  have hl := loadManifest_error f st₁ e hload₁
  rw [hlm] at hl
  obtain ⟨hl1, hl2, hl3, _⟩ := hl
  subst hl1
  have hei2 : extract_infos f r iOpt st = (.error e, st₂) := by
    rw [hei]; exact run_bind_error hlm
  rw [hei2]
  refine ⟨rfl, readManifest_error_cases st₁.fs (pathToJson f) e hload₁,
    hl3.trans hatt₁, ?_⟩
  intro info
  have hfs₁ : fsLookup st₁.fs (csvPath f info) =
      fsLookup st.fs (csvPath f info) := by
    have h := ft_preStage f r iOpt st (csvPath f info)
      (csv_not_under_extracted f info)
    rw [hps] at h; exact h
  rw [hl2]
  exact hfs₁

def wC2f : VPath := ⟨["D"], "Broken.vpax"⟩

def wC2st : VState :=
  ⟨[(pathToJson wC2f, .file none)], [], [], [], [], []⟩

theorem c2_load_failure_witness :
    (extract_infos wC2f false none wC2st).1 = .error .jsonDecodeError ∧
    fsLookup ((extract_infos wC2f false none wC2st).2).fs
      (csvPath wC2f "Measures") = none := by
  have h := c2_load_failure wC2f false none wC2st
    ["Measures", "Tables", "Columns", "Relationships"] .jsonDecodeError rfl rfl
  exact ⟨h.1, (h.2.2.2 "Measures").trans rfl⟩

theorem exportOne_ok (f : VPath) (data : Json) (info : String) (st : VState)
    (df : DataFrame) (h : toDataFrame data info = .ok df) :
    exportOne f data info st = (.ok (), { st with
      fs := fsWrite st.fs (csvPath f info) (to_csv df false),
      dirs := st.dirs ++ prefixesOf (workingDir f),
      msgLog := st.msgLog ++
        [(st.sinks, "Successfully converted " ++ info ++
          " to DataFrame with " ++ toString df.rows.length ++ " rows."),
         (st.sinks, "Successfully exported " ++ info ++ " to CSV: " ++
          showPath (csvPath f info)),
         (st.sinks, "END - Successfully extracted and saved \x7binfo\x7d.")],
      attempted := st.attempted ++ [info] }) := by
  simp [exportOne, run_bind, tryCatchM, markAttempt, liftE, h, logMsg,
    mkdirAll, writeFile, run_pure]

theorem exportOne_keyError (f : VPath) (data : Json) (info : String)
    (st : VState) (h : pyGetKey data info = .error (.keyError info)) :
    exportOne f data info st = (.error (.keyError info), { st with
      msgLog := st.msgLog ++
        [(st.sinks, "'" ++ info ++ "' key not found in the JSON file: " ++
          showPath (pathToJson f))],
      attempted := st.attempted ++ [info] }) := by
  have htd : toDataFrame data info = .error (.keyError info) := by
    unfold toDataFrame
    rw [h]
    rfl
  simp [exportOne, run_bind, tryCatchM, markAttempt, liftE, htd, logMsg,
    raiseErr, run_pure]

/-- C3: for every manifest and requested section absent from its keys, the
export stage raises `KeyError` naming that missing section, writes no CSV
file for it (not even a partial or empty one), and attempts none of the
remaining requested sections of that container. -/
theorem c3_missing_section (f : VPath) (data : Json) (st : VState)
    (pre : List String) (info : String) (post : List String)
    (hpre : ∀ p ∈ pre, ∃ dfp, toDataFrame data p = .ok dfp)
    (hmiss : pyGetKey data info = .error (.keyError info)) :
    (exportSections f data (pre ++ info :: post) st).1 =
      .error (.keyError info) ∧
    ((exportSections f data (pre ++ info :: post) st).2).attempted =
      st.attempted ++ pre ++ [info] ∧
    fsLookup ((exportSections f data (pre ++ info :: post) st).2).fs
      (csvPath f info) = fsLookup st.fs (csvPath f info) := by
  induction pre generalizing st with
  | nil =>
      have hko := exportOne_keyError f data info st hmiss
      have hdec : exportSections f data ([] ++ info :: post) st =
          (.error (.keyError info), { st with
            msgLog := st.msgLog ++
              [(st.sinks, "'" ++ info ++
                "' key not found in the JSON file: " ++
                showPath (pathToJson f))],
            attempted := st.attempted ++ [info] }) := by
        simp only [List.nil_append, exportSections]
        exact run_bind_error hko
      rw [hdec]
      exact ⟨rfl, by simp, rfl⟩
  | cons p pre' ih =>
      obtain ⟨dfp, hp⟩ := hpre p (by simp)
      have hne : p ≠ info := by
        rintro rfl
        have hred : toDataFrame data p = .error (.keyError p) := by
          unfold toDataFrame
          rw [hmiss]
          rfl
        rw [hred] at hp
        exact Except.noConfusion hp
      obtain ⟨stP, hok, hfsP, hattP⟩ :
          ∃ stP, exportOne f data p st = (.ok (), stP) ∧
            stP.fs = fsWrite st.fs (csvPath f p) (to_csv dfp false) ∧
            stP.attempted = st.attempted ++ [p] :=
        ⟨_, exportOne_ok f data p st dfp hp, rfl, rfl⟩
      have hdec : exportSections f data ((p :: pre') ++ info :: post) st =
          exportSections f data (pre' ++ info :: post) stP := by
        simp only [List.cons_append, exportSections]
        exact run_bind_ok hok
      rw [hdec]
      obtain ⟨ih1, ih2, ih3⟩ :=
        ih stP (fun q hq => hpre q (List.mem_cons_of_mem p hq))
      refine ⟨ih1, ?_, ?_⟩
      · rw [ih2, hattP]
        simp
      · rw [ih3, hfsP, fsLookup_fsWrite, if_neg]
        intro hcp
        exact hne (csvPath_inj f p info hcp)

def wEmptySt : VState := ⟨[], [], [], [], [], []⟩

def wC3data : Json := .obj [("Measures", .arr []), ("Tables", .arr [])]

theorem c3_missing_section_witness :
    (exportSections wC2f wC3data
      (["Measures", "Tables"] ++ "Columns" :: ["Relationships"]) wEmptySt).1 =
      .error (.keyError "Columns") ∧
    fsLookup ((exportSections wC2f wC3data
      (["Measures", "Tables"] ++ "Columns" :: ["Relationships"])
        wEmptySt).2).fs (csvPath wC2f "Columns") = none ∧
    ((exportSections wC2f wC3data
      (["Measures", "Tables"] ++ "Columns" :: ["Relationships"])
        wEmptySt).2).attempted = ["Measures", "Tables", "Columns"] := by
  have hpre : ∀ p ∈ ["Measures", "Tables"],
      ∃ dfp, toDataFrame wC3data p = .ok dfp := by
    intro p hp
    fin_cases hp
    · exact ⟨_, rfl⟩
    · exact ⟨_, rfl⟩
  have h := c3_missing_section wC2f wC3data wEmptySt ["Measures", "Tables"]
    "Columns" ["Relationships"] hpre rfl
  exact ⟨h.1, h.2.2.trans rfl, h.2.1.trans rfl⟩

theorem mem_dedupFirst_aux (l : List String) (acc : List String) (k : String) :
    (k ∈ l.foldl (fun acc k => if k ∈ acc then acc else acc ++ [k]) acc) ↔
      k ∈ acc ∨ k ∈ l := by
  induction l generalizing acc with
  | nil => simp
  | cons x xs ih =>
      simp only [List.foldl_cons]
      by_cases hx : x ∈ acc
      · rw [if_pos hx, ih]
        simp only [List.mem_cons]
        constructor
        · rintro (h | h)
          · exact .inl h
          · exact .inr (.inr h)
        · rintro (h | rfl | h)
          · exact .inl h
          · exact .inl hx
          · exact .inr h
      · rw [if_neg hx, ih]
        simp [List.mem_append, List.mem_cons, or_assoc]

theorem mem_unionKeys (rows : List Json) (k : String) :
    k ∈ unionKeys rows ↔ ∃ r ∈ rows, k ∈ objKeys r := by
  unfold unionKeys dedupFirst
  rw [mem_dedupFirst_aux]
  simp [List.mem_flatten]

theorem self_mem_prefixesOf (d : List String) : d ∈ prefixesOf d := by
  unfold prefixesOf
  refine List.mem_map.mpr ⟨d.length, ?_, List.take_length d⟩
  simp [List.mem_range]

/-- C6: for container file `X.ext` at directory `D` and a successfully
exported section `S` whose manifest value is an array of `N` row objects,
the exporter writes the file at exactly `D/X/X - S.csv` (the working
directory is created, and any existing file at the path is overwritten)
whose header row is the union of keys observed across the `N` objects, with
one data row per object and no row-index column. -/
theorem c6_export_csv (f : VPath) (data : Json) (info : String) (st : VState)
    (rows : List Json)
    (hsec : pyGetKey data info = .ok (.arr rows))
    (hobj : rows.all isObj = true) :
    csvPath f info = f.parent ++ [f.stem, f.stem ++ " - " ++ info ++ ".csv"] ∧
    (exportOne f data info st).1 = .ok () ∧
    fsLookup ((exportOne f data info st).2).fs (csvPath f info) =
      some (.csv (unionKeys rows)
        (rows.map (fun r => (unionKeys rows).map (cellOf r)))) ∧
    (rows.map (fun r => (unionKeys rows).map (cellOf r))).length =
      rows.length ∧
    (∀ k, k ∈ unionKeys rows ↔ ∃ r ∈ rows, k ∈ objKeys r) ∧
    workingDir f ∈ ((exportOne f data info st).2).dirs ∧
    (∀ q, q ≠ csvPath f info →
      fsLookup ((exportOne f data info st).2).fs q = fsLookup st.fs q) := by
  have hdf : pdDataFrame (.arr rows) =
      .ok { columns := unionKeys rows
            rows := rows.map (fun r => (unionKeys rows).map (cellOf r)) } := by
    simp [pdDataFrame, hobj]
  have htd : toDataFrame data info =
      .ok { columns := unionKeys rows
            rows := rows.map (fun r => (unionKeys rows).map (cellOf r)) } := by
    unfold toDataFrame
    rw [hsec]
    exact hdf
  have hok := exportOne_ok f data info st _ htd
  refine ⟨?_, ?_, ?_, by simp, mem_unionKeys rows, ?_, ?_⟩
  · simp [csvPath, workingDir, csvName]
  · rw [hok]
  · rw [hok]
    show fsLookup (fsWrite st.fs (csvPath f info) _) (csvPath f info) = _
    rw [fsLookup_fsWrite, if_pos rfl]
    simp [to_csv]
  · rw [hok]
    show workingDir f ∈ st.dirs ++ prefixesOf (workingDir f)
    exact List.mem_append.mpr (.inr (self_mem_prefixesOf _))
  · intro q hq
    rw [hok]
    show fsLookup (fsWrite st.fs (csvPath f info) _) q = fsLookup st.fs q
    rw [fsLookup_fsWrite, if_neg (fun h => hq h.symm)]

def wC6rows : List Json :=
  [.obj [("Name", .str "Total"), ("Expr", .str "SUM")],
   .obj [("Name", .str "X"), ("Extra", .num 1)]]

def wC6data : Json := .obj [("Measures", .arr wC6rows)]

theorem c6_export_csv_witness :
    (exportOne wC2f wC6data "Measures" wEmptySt).1 = .ok () ∧
    fsLookup ((exportOne wC2f wC6data "Measures" wEmptySt).2).fs
      (csvPath wC2f "Measures") =
      some (.csv ["Name", "Expr", "Extra"]
        [[some (.str "Total"), some (.str "SUM"), none],
         [some (.str "X"), none, some (.num 1)]]) ∧
    csvPath wC2f "Measures" = [["D"], ["Broken", "Broken - Measures.csv"]].flatten := by
  have h := c6_export_csv wC2f wC6data "Measures" wEmptySt wC6rows rfl rfl
  refine ⟨h.2.1, h.2.2.1.trans ?_, h.1.trans ?_⟩
  · rfl
  · rfl

theorem att_exportOne (f : VPath) (data : Json) (info : String) (st : VState) :
    ((exportOne f data info st).2).attempted = st.attempted ++ [info] := by
  unfold exportOne
  rw [run_bind, run_markAttempt]
  exact (preserves_bind (preserves_catch
      (preserves_bind (preserves_liftE attemptedOf _)
        (fun df => preserves_seq (att_logMsg _) (att_pure df)))
      (fun e => by
        cases e <;>
          first
            | exact preserves_seq (att_logMsg _) (att_raiseErr _)
            | exact preserves_seq (att_pure ()) (att_raiseErr _)))
    (fun df => preserves_seq (att_mkdirAll _)
      (preserves_seq (att_writeFile _ _)
        (preserves_seq (att_logMsg _) (att_logMsg _))))) _

theorem att_exportSections_ok (f : VPath) (data : Json) (infos : List String) :
    ∀ st : VState, (exportSections f data infos st).1 = .ok () →
      ((exportSections f data infos st).2).attempted =
        st.attempted ++ infos := by
  induction infos with
  | nil =>
      intro st h
      simp [exportSections, run_pure]
  | cons i rest ih =>
      intro st h
      rcases hE : exportOne f data i st with ⟨eres, stP⟩
      have hatt : stP.attempted = st.attempted ++ [i] := by
        have ha := att_exportOne f data i st; rw [hE] at ha; exact ha
      cases eres with
      | error e =>
          have hd : (exportSections f data (i :: rest) st).1 = .error e := by
            rw [show exportSections f data (i :: rest) st = (.error e, stP)
              from by simp only [exportSections]; exact run_bind_error hE]
          rw [hd] at h
          exact absurd h (by simp)
      | ok u =>
          have hdec : exportSections f data (i :: rest) st =
              exportSections f data rest stP := by
            simp only [exportSections]; exact run_bind_ok hE
          rw [hdec] at h ⊢
          rw [ih stP h, hatt]
          simp

theorem bind_pure_ok_val {α β : Type} {x : M α} {v : β} {st : VState}
    {b : β} {st₁ : VState} (h : (x >>= fun _ => pure v) st = (.ok b, st₁)) :
    b = v := by
  rw [run_bind] at h
  rcases hx : x st with ⟨res, st₂⟩
  rw [hx] at h
  cases res with
  | ok a =>
      simp [run_pure] at h
      exact h.1.symm
  | error e => simp at h

theorem preStage_ok_val (f : VPath) (r : Bool) (iOpt : Option (List String))
    (st : VState) (infos : List String) (st₁ : VState)
    (h : preStage f r iOpt st = (.ok infos, st₁)) :
    infos = iOpt.getD ["Measures", "Tables", "Columns", "Relationships"] := by
  cases iOpt with
  | none =>
      rw [preStage_none_eq] at h
      exact bind_pure_ok_val h
  | some l =>
      rw [preStage_some_eq] at h
      exact bind_pure_ok_val h

/-- C7: when no explicit section list is supplied to the orchestrator,
exactly the four sections Measures, Tables, Columns, Relationships are
requested for export, and on a successful run the attempted exports are
exactly those four in that order. -/
theorem c7_default_sections (f : VPath) (r : Bool) (st : VState) :
    (resolveInfos none st).1 =
      .ok ["Measures", "Tables", "Columns", "Relationships"] ∧
    ((extract_infos f r none st).1 = .ok () →
      ((extract_infos f r none st).2).attempted =
        st.attempted ++ ["Measures", "Tables", "Columns", "Relationships"]) := by
  refine ⟨rfl, ?_⟩
  intro hok
  rcases hps : preStage f r none st with ⟨res, st₁⟩
  have hatt₁ : st₁.attempted = st.attempted := by
    have h := att_preStage f r none st; rw [hps] at h; exact h
  cases res with
  | error e =>
      have hd : extract_infos f r none st = (.error e, st₁) :=
        run_bind_error hps
      rw [hd] at hok
      exact absurd hok (by simp)
  | ok infos =>
      obtain rfl := preStage_ok_val f r none st infos st₁ hps
      have hdec : extract_infos f r none st =
          (loadManifest f >>= fun data =>
            exportSections f data
              ["Measures", "Tables", "Columns", "Relationships"] >>= fun _ =>
            logMsg "END - Extracting informations from VPAX source") st₁ :=
        run_bind_ok hps
      rw [hdec] at hok ⊢
      rcases hlm : loadManifest f st₁ with ⟨lres, st₂⟩
      have hatt₂ : st₂.attempted = st₁.attempted := by
        have h := att_loadManifest f st₁; rw [hlm] at h; exact h
      cases lres with
      | error e =>
          rw [run_bind_error hlm] at hok
          exact absurd hok (by simp)
      | ok data =>
          rw [run_bind_ok hlm] at hok ⊢
          rcases hes : exportSections f data
              ["Measures", "Tables", "Columns", "Relationships"] st₂
            with ⟨eres, st₃⟩
          cases eres with
          | error e =>
              rw [run_bind_error hes] at hok
              exact absurd hok (by simp)
          | ok u =>
              rw [run_bind_ok hes] at hok ⊢
              have hatt₃ : st₃.attempted = st₂.attempted ++
                  ["Measures", "Tables", "Columns", "Relationships"] := by
                have h := att_exportSections_ok f data
                  ["Measures", "Tables", "Columns", "Relationships"] st₂
                  (by rw [hes])
                rw [hes] at h
                exact h
              show st₃.attempted = st.attempted ++
                ["Measures", "Tables", "Columns", "Relationships"]
              rw [hatt₃, hatt₂, hatt₁]

def wGoodManifest : Json :=
  .obj [("Measures", .arr []), ("Tables", .arr []), ("Columns", .arr []),
    ("Relationships", .arr [])]

def wGoodSt : VState :=
  ⟨[(VPath.filePath wC1f,
      .archive [(["DaxVpaView.json"], some wGoodManifest)])],
    [], [], [], [], []⟩

theorem c7_default_sections_witness :
    (resolveInfos none wGoodSt).1 =
      .ok ["Measures", "Tables", "Columns", "Relationships"] ∧
    ((extract_infos wC1f true none wGoodSt).2).attempted =
      ["Measures", "Tables", "Columns", "Relationships"] := by
  have h := c7_default_sections wC1f true wGoodSt
  exact ⟨h.1, (h.2 (by decide!)).trans rfl⟩

/-- C4 counterexample: with two container files of which the first cannot
be opened, the batch loop does not catch the error and continue — it
returns the error, and the second container is never processed: its log
sink is never added and no section export is ever attempted. -/
theorem c4_counterexample :
    (processFolderLoop true [⟨["D"], "Missing.vpax"⟩, ⟨["D"], "Later.vpax"⟩]
        wEmptySt).1 =
      .error (.archiveOpenError (VPath.filePath ⟨["D"], "Missing.vpax"⟩)) ∧
    logFilePath ⟨["D"], "Later.vpax"⟩ ∉
      ((processFolderLoop true
        [⟨["D"], "Missing.vpax"⟩, ⟨["D"], "Later.vpax"⟩] wEmptySt).2).sinks ∧
    ((processFolderLoop true
      [⟨["D"], "Missing.vpax"⟩, ⟨["D"], "Later.vpax"⟩] wEmptySt).2).attempted =
      [] := by
  refine ⟨by decide!, by decide!, by decide!⟩

/-- C4 (amended): the batch loop of `process_folder` has no per-container
error handling: an error raised while processing one container propagates
out of the loop and the subsequent container files are not processed at
all — the loop stops in the state the failing container left behind. -/
theorem c4_batch_abort (r : Bool) (f : VPath) (rest : List VPath)
    (st : VState) (e : PyError)
    (h : (perContainer r f st).1 = .error e) :
    processFolderLoop r (f :: rest) st = (.error e, (perContainer r f st).2) := by
  rcases hE : perContainer r f st with ⟨res, st₁⟩
  have hres : res = .error e := by
    have h' := h; rw [hE] at h'; exact h'
  subst hres
  show processFolderLoop r (f :: rest) st = (.error e, st₁)
  simp only [processFolderLoop]
  exact run_bind_error hE

theorem c4_batch_abort_witness :
    processFolderLoop true [⟨["D"], "Missing.vpax"⟩, ⟨["D"], "Later.vpax"⟩]
        wEmptySt =
      (.error (.archiveOpenError (VPath.filePath ⟨["D"], "Missing.vpax"⟩)),
        (perContainer true ⟨["D"], "Missing.vpax"⟩ wEmptySt).2) :=
  c4_batch_abort true ⟨["D"], "Missing.vpax"⟩ [⟨["D"], "Later.vpax"⟩] wEmptySt
    (.archiveOpenError (VPath.filePath ⟨["D"], "Missing.vpax"⟩)) (by decide!)

/-- C5 (code behavior at the failing input): the watch-mode handler wraps
the triggered pipeline run in no error handling, so the error raised by the
run of a modified `.vpax` file whose container cannot be opened propagates
out of `on_modified` itself, instead of being caught and logged inside the
handler. -/
theorem c5_handler_error_propagates :
    (on_modified true (.fileModified ⟨["D"], "Missing.vpax"⟩) wEmptySt).1 =
      .error (.archiveOpenError (VPath.filePath ⟨["D"], "Missing.vpax"⟩)) := by
  decide!

theorem loadManifest_ok (f : VPath) (st : VState) (d : Json)
    (h : readManifest st.fs (pathToJson f) = .ok d) :
    loadManifest f st = (.ok d, { st with msgLog := st.msgLog ++
      [(st.sinks, "Successfully read the JSON file: " ++
        showPath (pathToJson f))] }) := by
  have hbody : (openJson (pathToJson f) >>= fun d' =>
      logMsg ("Successfully read the JSON file: " ++
        showPath (pathToJson f)) >>= fun _ => pure d') st =
      (.ok d, { st with msgLog := st.msgLog ++
        [(st.sinks, "Successfully read the JSON file: " ++
          showPath (pathToJson f))] }) := by
    rw [run_bind_ok (show openJson (pathToJson f) st = (.ok d, st) from by
      rw [run_openJson]
      exact congrArg (fun x => (x, st)) h)]
    rfl
  unfold loadManifest tryCatchM
  rw [hbody]

/-- C9: when the caller passes an explicitly empty section list (rather
than omitting it), the orchestrator still performs the extraction decision
and loads the manifest, but attempts no section, writes no CSV file, and
completes without error — the four-section default applies only to an
absent argument, not to an empty list. -/
theorem c9_empty_sections (f : VPath) (r : Bool) (st : VState) (d : Json)
    (hpre : (preStage f r (some []) st).1 = .ok [])
    (hload : readManifest ((preStage f r (some []) st).2).fs (pathToJson f) =
      .ok d) :
    (resolveInfos (some []) st).1 = .ok [] ∧
    (extract_infos f r (some []) st).1 = .ok () ∧
    ((extract_infos f r (some []) st).2).attempted = st.attempted ∧
    (∀ info : String,
      fsLookup ((extract_infos f r (some []) st).2).fs (csvPath f info) =
        fsLookup st.fs (csvPath f info)) ∧
    ((extract_infos f r (some []) st).2).extractorRuns =
      (if r then st.extractorRuns ++ [f.filePath]
       else if (fsLookup st.fs (pathToJson f)).isSome then st.extractorRuns
       else st.extractorRuns ++ [f.filePath]) := by
  rcases hps : preStage f r (some []) st with ⟨res, st₁⟩
  have hres : res = .ok [] := by
    have h := hpre; rw [hps] at h; exact h
  subst hres
  have hload₁ : readManifest st₁.fs (pathToJson f) = .ok d := by
    have h := hload; rw [hps] at h; exact h
  have hatt₁ : st₁.attempted = st.attempted := by
    have h := att_preStage f r (some []) st; rw [hps] at h; exact h
  have hfinal : extract_infos f r (some []) st = (.ok (),
      { st₁ with msgLog := (st₁.msgLog ++
        [(st₁.sinks, "Successfully read the JSON file: " ++
          showPath (pathToJson f))]) ++
        [(st₁.sinks, "END - Extracting informations from VPAX source")] }) := by
    rw [show extract_infos f r (some []) st =
        (loadManifest f >>= fun data =>
          exportSections f data [] >>= fun _ =>
          logMsg "END - Extracting informations from VPAX source") st₁ from
      run_bind_ok hps]
    rw [run_bind_ok (loadManifest_ok f st₁ d hload₁)]
    rfl
  refine ⟨rfl, ?_, ?_, ?_, runs_extract_infos f r (some []) st⟩
  · rw [hfinal]
  · rw [hfinal]
    exact hatt₁
  · intro info
    rw [hfinal]
    show fsLookup st₁.fs (csvPath f info) = fsLookup st.fs (csvPath f info)
    have h := ft_preStage f r (some []) st (csvPath f info)
      (csv_not_under_extracted f info)
    rw [hps] at h
    exact h

theorem c9_empty_sections_witness :
    (extract_infos wC1f false (some []) wC1st).1 = .ok () ∧
    ((extract_infos wC1f false (some []) wC1st).2).attempted = [] ∧
    fsLookup ((extract_infos wC1f false (some []) wC1st).2).fs
      (csvPath wC1f "Measures") = none ∧
    ((extract_infos wC1f false (some []) wC1st).2).extractorRuns = [] := by
  have h := c9_empty_sections wC1f false wC1st (.obj []) rfl rfl
  refine ⟨h.2.1, (h.2.2.1).trans rfl, (h.2.2.2.1 "Measures").trans rfl, ?_⟩
  rw [h.2.2.2.2]
  rfl

theorem readsOk_iff (fs : List (List String × Content)) (p : List String) :
    readsOk fs p = true ↔ ∃ j, readManifest fs p = .ok j := by
  unfold readsOk
  rcases h : readManifest fs p with e | j
  · simp
  · simp

theorem readManifest_decode_error (fs : List (List String × Content))
    (p : List String) (hmem : p ∈ fs.map Prod.fst)
    (hbad : readsOk fs p = false) :
    readManifest fs p = .error .jsonDecodeError := by
  have hsome := fsLookup_isSome_of_mem fs p hmem
  rcases hl : fsLookup fs p with _ | c
  · rw [hl] at hsome
    simp at hsome
  · have hcj : contentJson c = none := by
      rcases hc : contentJson c with _ | j
      · rfl
      · exfalso
        have hok : readsOk fs p = true := by
          refine (readsOk_iff fs p).mpr ⟨j, ?_⟩
          unfold readManifest
          rw [hl]
          simp only [Option.some.injEq]
          rw [hc]
        rw [hok] at hbad
        exact Bool.noConfusion hbad
    unfold readManifest
    rw [hl]
    simp only [Option.some.injEq]
    rw [hcj]

theorem scan_cons_ok (p : List String) (rest : List (List String))
    (st : VState) (j : Json) (hj : readManifest st.fs p = .ok j) :
    scanJsonFiles (p :: rest) st = scanJsonFiles rest
      { st with msgLog := st.msgLog ++
        [(st.sinks, "Reading JSON file: " ++ showPath p)] } := by
  have hdec : scanJsonFiles (p :: rest) st =
      (openJson p >>= fun _ => scanJsonFiles rest)
      { st with msgLog := st.msgLog ++
        [(st.sinks, "Reading JSON file: " ++ showPath p)] } := rfl
  rw [hdec]
  exact run_bind_ok (by
    rw [run_openJson]
    exact congrArg (fun r => (r, _)) hj)

theorem scan_cons_err (p : List String) (rest : List (List String))
    (st : VState) (e : PyError) (he : readManifest st.fs p = .error e) :
    scanJsonFiles (p :: rest) st = (.error e,
      { st with msgLog := st.msgLog ++
        [(st.sinks, "Reading JSON file: " ++ showPath p)] }) := by
  have hdec : scanJsonFiles (p :: rest) st =
      (openJson p >>= fun _ => scanJsonFiles rest)
      { st with msgLog := st.msgLog ++
        [(st.sinks, "Reading JSON file: " ++ showPath p)] } := rfl
  rw [hdec]
  exact run_bind_error (by
    rw [run_openJson]
    exact congrArg (fun r => (r, _)) he)

theorem scan_ok (ps : List (List String)) : ∀ st : VState,
    (∀ p ∈ ps, readsOk st.fs p = true) →
    scanJsonFiles ps st = (.ok (), { st with msgLog := (st.msgLog ++
      ps.map (fun p => (st.sinks, "Reading JSON file: " ++ showPath p))) }) := by
  induction ps with
  | nil =>
      intro st h
      simp [scanJsonFiles, run_pure]
  | cons p rest ih =>
      intro st h
      obtain ⟨j, hj⟩ := (readsOk_iff st.fs p).mp (h p (by simp))
      rw [scan_cons_ok p rest st j hj]
      rw [ih { st with msgLog := st.msgLog ++
          [(st.sinks, "Reading JSON file: " ++ showPath p)] }
        (fun q hq => h q (List.mem_cons_of_mem p hq))]
      simp

theorem scan_split_err (e : PyError) (good : List (List String))
    (bad : List String) (post : List (List String)) : ∀ st : VState,
    (∀ p ∈ good, readsOk st.fs p = true) →
    readManifest st.fs bad = .error e →
    scanJsonFiles (good ++ bad :: post) st = (.error e,
      { st with msgLog := (st.msgLog ++
        (good ++ [bad]).map
          (fun p => (st.sinks, "Reading JSON file: " ++ showPath p))) }) := by
  induction good with
  | nil =>
      intro st hg hb
      simp only [List.nil_append]
      rw [scan_cons_err bad post st e hb]
      simp
  | cons p rest ih =>
      intro st hg hb
      obtain ⟨j, hj⟩ := (readsOk_iff st.fs p).mp (hg p (by simp))
      rw [show (p :: rest) ++ bad :: post = p :: (rest ++ bad :: post)
        from rfl]
      rw [scan_cons_ok p (rest ++ bad :: post) st j hj]
      rw [ih { st with msgLog := st.msgLog ++
          [(st.sinks, "Reading JSON file: " ++ showPath p)] }
        (fun q hq => hg q (List.mem_cons_of_mem p hq)) hb]
      simp

/-- C8: after unpacking a container, the Archive Extractor opens and parses
every file ending in `.json` found anywhere under the extraction
subdirectory (content discarded, filesystem untouched, one log line naming
each file read); if the scan reaches a file that is malformed JSON, the
extraction fails with `json.JSONDecodeError` even when the manifest itself
is well-formed, the offending file's path being identified by the last log
line emitted before the failure. -/
theorem c8_failfast_scan (f : VPath) (st st₁ : VState)
    (files : List (List String))
    (hunzip : unzipPhase f st = (.ok (), st₁))
    (hfiles : files = jsonFilesUnder st₁.fs (extractedDir f)) :
    ((∀ p ∈ files, readsOk st₁.fs p = true) →
      (extract_vpax f st).1 = .ok () ∧
      ((extract_vpax f st).2).fs = st₁.fs ∧
      ∀ p ∈ files,
        (st₁.sinks, "Reading JSON file: " ++ showPath p) ∈
          ((extract_vpax f st).2).msgLog) ∧
    (∀ (good : List (List String)) (bad : List String)
        (post : List (List String)),
      files = good ++ bad :: post →
      (∀ p ∈ good, readsOk st₁.fs p = true) →
      readsOk st₁.fs bad = false →
      (extract_vpax f st).1 = .error .jsonDecodeError ∧
      (((extract_vpax f st).2).msgLog.getLastD ([], "")).2 =
        "Reading JSON file: " ++ showPath bad) := by
  have hdc : extract_vpax f st = scanJsonFiles files st₁ := by
    have h1 : extract_vpax f st = (getFs >>= fun fs =>
        scanJsonFiles (jsonFilesUnder fs (extractedDir f))) st₁ :=
      run_bind_ok hunzip
    rw [h1, run_bind_ok (run_getFs st₁), hfiles]
  constructor
  · intro hall
    rw [hdc, scan_ok files st₁ hall]
    refine ⟨rfl, rfl, ?_⟩
    intro p hp
    exact List.mem_append.mpr (.inr (List.mem_map_of_mem _ hp))
  · rintro good bad post rfl hgood hbad
    have hbadmem : bad ∈ st₁.fs.map Prod.fst := by
      have hmem : bad ∈ jsonFilesUnder st₁.fs (extractedDir f) := by
        rw [← hfiles]
        exact List.mem_append.mpr (.inr (by simp))
      unfold jsonFilesUnder at hmem
      exact (List.mem_filter.mp hmem).1
    have herr := readManifest_decode_error st₁.fs bad hbadmem hbad
    rw [hdc, scan_split_err .jsonDecodeError good bad post st₁ hgood herr]
    refine ⟨rfl, ?_⟩
    show ((st₁.msgLog ++ (good ++ [bad]).map
      (fun p => (st₁.sinks, "Reading JSON file: " ++ showPath p))).getLastD
        ([], "")).2 = "Reading JSON file: " ++ showPath bad
    rw [show st₁.msgLog ++ (good ++ [bad]).map
        (fun p => (st₁.sinks, "Reading JSON file: " ++ showPath p)) =
        (st₁.msgLog ++ good.map
          (fun p => (st₁.sinks, "Reading JSON file: " ++ showPath p))) ++
        [(st₁.sinks, "Reading JSON file: " ++ showPath bad)] from by simp]
    rw [List.getLastD_concat]

def wC8f : VPath := ⟨["D"], "Scan.vpax"⟩

def wC8st : VState :=
  ⟨[(VPath.filePath wC8f, .archive
      [(["DaxVpaView.json"], some wGoodManifest), (["Bad.json"], none)])],
    [], [], [], [], []⟩

theorem c8_failfast_scan_witness :
    (extract_vpax wC8f wC8st).1 = .error .jsonDecodeError ∧
    (((extract_vpax wC8f wC8st).2).msgLog.getLastD ([], "")).2 =
      "Reading JSON file: D/Scan/extracted/Bad.json" := by
  have h1 : (unzipPhase wC8f wC8st).1 = .ok () := by decide!
  have hunzip : unzipPhase wC8f wC8st =
      (.ok (), (unzipPhase wC8f wC8st).2) := by
    rw [← h1]
  have h := (c8_failfast_scan wC8f wC8st (unzipPhase wC8f wC8st).2
      (jsonFilesUnder ((unzipPhase wC8f wC8st).2).fs (extractedDir wC8f))
      hunzip rfl).2
    [pathToJson wC8f] (extractedDir wC8f ++ ["Bad.json"]) []
    (by decide!) (by decide!) (by decide!)
  exact ⟨h.1, h.2.trans rfl⟩

/-- The action leaves the sink list unchanged and tags every log record it
appends with exactly the sink list it started from (loguru delivers each
record to all sinks configured at emission time). -/
def NoSinkChange {α : Type} (act : M α) : Prop :=
  ∀ st : VState, ∃ new : List String,
    ((act st).2).sinks = st.sinks ∧
    ((act st).2).msgLog = st.msgLog ++ new.map (fun m => (st.sinks, m))

theorem nsc_of_silent {α : Type} {act : M α}
    (h : ∀ st : VState,
      ((act st).2).sinks = st.sinks ∧ ((act st).2).msgLog = st.msgLog) :
    NoSinkChange act :=
  fun st => ⟨[], (h st).1, by rw [(h st).2]; simp⟩

theorem nsc_bind {α β : Type} {x : M α} {f : α → M β}
    (hx : NoSinkChange x) (hf : ∀ a, NoSinkChange (f a)) :
    NoSinkChange (x >>= f) := by
  intro st
  rw [run_bind]
  rcases hxs : x st with ⟨res, st₁⟩
  obtain ⟨n₁, hs₁, hm₁⟩ := hx st
  rw [hxs] at hs₁ hm₁
  cases res with
  | ok a =>
      obtain ⟨n₂, hs₂, hm₂⟩ := hf a st₁
      refine ⟨n₁ ++ n₂, ?_, ?_⟩
      · show ((f a st₁).2).sinks = st.sinks
        rw [hs₂, hs₁]
      · show ((f a st₁).2).msgLog =
          st.msgLog ++ (n₁ ++ n₂).map (fun m => (st.sinks, m))
        rw [hm₂, hm₁, hs₁]
        simp
  | error e => exact ⟨n₁, hs₁, hm₁⟩

theorem nsc_seq {α β : Type} {x : M α} {y : M β}
    (hx : NoSinkChange x) (hy : NoSinkChange y) :
    NoSinkChange (x >>= fun _ => y) :=
  nsc_bind hx (fun _ => hy)

theorem nsc_catch {α : Type} {x : M α} {h : PyError → M α}
    (hx : NoSinkChange x) (hh : ∀ e, NoSinkChange (h e)) :
    NoSinkChange (tryCatchM x h) := by
  intro st
  unfold tryCatchM
  rcases hxs : x st with ⟨res, st₁⟩
  obtain ⟨n₁, hs₁, hm₁⟩ := hx st
  rw [hxs] at hs₁ hm₁
  cases res with
  | ok a => exact ⟨n₁, hs₁, hm₁⟩
  | error e =>
      obtain ⟨n₂, hs₂, hm₂⟩ := hh e st₁
      refine ⟨n₁ ++ n₂, ?_, ?_⟩
      · show ((h e st₁).2).sinks = st.sinks
        rw [hs₂, hs₁]
      · show ((h e st₁).2).msgLog =
          st.msgLog ++ (n₁ ++ n₂).map (fun m => (st.sinks, m))
        rw [hm₂, hm₁, hs₁]
        simp

theorem nsc_ite {α : Type} (c : Prop) [Decidable c] {x y : M α}
    (hx : NoSinkChange x) (hy : NoSinkChange y) :
    NoSinkChange (if c then x else y) := by
  by_cases h : c
  · rw [if_pos h]; exact hx
  · rw [if_neg h]; exact hy

theorem nsc_logMsg (m : String) : NoSinkChange (logMsg m) :=
  fun _st => ⟨[m], rfl, rfl⟩

theorem nsc_pure {α : Type} (a : α) : NoSinkChange (pure a : M α) :=
  nsc_of_silent (fun _ => ⟨rfl, rfl⟩)

theorem nsc_writeFile (p : List String) (c : Content) :
    NoSinkChange (writeFile p c) := nsc_of_silent (fun _ => ⟨rfl, rfl⟩)

theorem nsc_mkdirAll (d : List String) : NoSinkChange (mkdirAll d) :=
  nsc_of_silent (fun _ => ⟨rfl, rfl⟩)

theorem nsc_markExtractorRun (p : List String) :
    NoSinkChange (markExtractorRun p) := nsc_of_silent (fun _ => ⟨rfl, rfl⟩)

theorem nsc_markAttempt (i : String) : NoSinkChange (markAttempt i) :=
  nsc_of_silent (fun _ => ⟨rfl, rfl⟩)

theorem nsc_getFs : NoSinkChange getFs := nsc_of_silent (fun _ => ⟨rfl, rfl⟩)

theorem nsc_liftE {α : Type} (r : Except PyError α) : NoSinkChange (liftE r) :=
  nsc_of_silent (fun _ => ⟨rfl, rfl⟩)

theorem nsc_raiseErr {α : Type} (e : PyError) :
    NoSinkChange (raiseErr (α := α) e) := nsc_of_silent (fun _ => ⟨rfl, rfl⟩)

theorem nsc_openJson (p : List String) : NoSinkChange (openJson p) :=
  nsc_of_silent (fun _ => ⟨rfl, rfl⟩)

theorem nsc_zipOpen (p : List String) : NoSinkChange (zipOpen p) :=
  nsc_of_silent (fun _st => by unfold zipOpen; split <;> exact ⟨rfl, rfl⟩)

theorem nsc_extractEntries (base : List String)
    (es : List (List String × Option Json)) :
    NoSinkChange (extractEntries base es) := by
  induction es with
  | nil => exact nsc_pure ()
  | cons e rest ih =>
      obtain ⟨rel, body⟩ := e
      simp only [extractEntries]
      exact nsc_seq (nsc_mkdirAll _)
        (nsc_seq (nsc_writeFile _ _) ih)

theorem nsc_scanJsonFiles (ps : List (List String)) :
    NoSinkChange (scanJsonFiles ps) := by
  induction ps with
  | nil => exact nsc_pure ()
  | cons p rest ih =>
      simp only [scanJsonFiles]
      exact nsc_seq (nsc_logMsg _)
        (nsc_bind (nsc_openJson p) (fun _ => ih))

theorem nsc_unzipPhase (f : VPath) : NoSinkChange (unzipPhase f) := by
  unfold unzipPhase
  exact nsc_seq (nsc_markExtractorRun _)
    (nsc_seq (nsc_logMsg _)
      (nsc_bind (nsc_zipOpen _)
        (fun es => nsc_seq (nsc_mkdirAll _)
          (nsc_seq (nsc_extractEntries _ es) (nsc_logMsg _)))))

theorem nsc_extract_vpax (f : VPath) : NoSinkChange (extract_vpax f) := by
  unfold extract_vpax
  exact nsc_seq (nsc_unzipPhase f)
    (nsc_bind nsc_getFs (fun fs => nsc_scanJsonFiles _))

theorem nsc_resolveInfos (iOpt : Option (List String)) :
    NoSinkChange (resolveInfos iOpt) := by
  cases iOpt with
  | none => exact nsc_seq (nsc_logMsg _) (nsc_pure _)
  | some l => exact nsc_pure l

theorem nsc_ensureExtracted (f : VPath) (r : Bool) :
    NoSinkChange (ensureExtracted f r) := by
  unfold ensureExtracted
  refine nsc_ite _ ?_ ?_
  · exact nsc_seq (nsc_logMsg _) (nsc_extract_vpax f)
  · refine nsc_bind nsc_getFs (fun fs => nsc_ite _ ?_ ?_)
    · exact nsc_seq (nsc_logMsg _) (nsc_extract_vpax f)
    · exact nsc_logMsg _

theorem nsc_preStage (f : VPath) (r : Bool) (iOpt : Option (List String)) :
    NoSinkChange (preStage f r iOpt) := by
  unfold preStage
  exact nsc_seq (nsc_logMsg _)
    (nsc_bind (nsc_resolveInfos iOpt)
      (fun infos => nsc_seq (nsc_ensureExtracted f r)
        (nsc_pure infos)))

theorem nsc_loadManifest (f : VPath) : NoSinkChange (loadManifest f) := by
  unfold loadManifest
  refine nsc_catch ?_ ?_
  · exact nsc_bind (nsc_openJson _)
      (fun d => nsc_seq (nsc_logMsg _) (nsc_pure d))
  · intro e
    cases e <;>
      first
        | exact nsc_seq (nsc_logMsg _) (nsc_raiseErr _)
        | exact nsc_seq (nsc_pure ()) (nsc_raiseErr _)

theorem nsc_exportOne (f : VPath) (data : Json) (info : String) :
    NoSinkChange (exportOne f data info) := by
  unfold exportOne
  refine nsc_seq (nsc_markAttempt _)
    (nsc_bind ?_ (fun df => ?_))
  · refine nsc_catch ?_ ?_
    · exact nsc_bind (nsc_liftE _)
        (fun df => nsc_seq (nsc_logMsg _) (nsc_pure df))
    · intro e
      cases e <;>
        first
          | exact nsc_seq (nsc_logMsg _) (nsc_raiseErr _)
          | exact nsc_seq (nsc_pure ()) (nsc_raiseErr _)
  · exact nsc_seq (nsc_mkdirAll _)
      (nsc_seq (nsc_writeFile _ _)
        (nsc_seq (nsc_logMsg _) (nsc_logMsg _)))

theorem nsc_exportSections (f : VPath) (data : Json) (infos : List String) :
    NoSinkChange (exportSections f data infos) := by
  induction infos with
  | nil => exact nsc_pure ()
  | cons i rest ih =>
      simp only [exportSections]
      exact nsc_seq (nsc_exportOne f data i) ih

theorem nsc_extract_infos (f : VPath) (r : Bool)
    (iOpt : Option (List String)) : NoSinkChange (extract_infos f r iOpt) := by
  unfold extract_infos
  exact nsc_bind (nsc_preStage f r iOpt)
    (fun infos => nsc_bind (nsc_loadManifest f)
      (fun data => nsc_seq (nsc_exportSections f data infos)
        (nsc_logMsg _)))

theorem perContainer_effect (r : Bool) (f : VPath) (st : VState) :
    ∃ new : List String,
      ((perContainer r f st).2).sinks = st.sinks ++ [logFilePath f] ∧
      ((perContainer r f st).2).msgLog = st.msgLog ++
        [(st.sinks, "Processing VPAX file: " ++ showPath f.filePath)] ++
        new.map (fun m => (st.sinks ++ [logFilePath f], m)) := by
  obtain ⟨new, hs, hm⟩ := nsc_extract_infos f r none
    { st with
      dirs := st.dirs ++ prefixesOf (workingDir f),
      sinks := st.sinks ++ [logFilePath f],
      msgLog := st.msgLog ++
        [(st.sinks, "Processing VPAX file: " ++ showPath f.filePath)] }
  exact ⟨new, hs, hm⟩

theorem loop_append (r : Bool) (xs ys : List VPath) :
    ∀ st : VState, processFolderLoop r (xs ++ ys) st =
      match processFolderLoop r xs st with
      | (.ok _, st₁) => processFolderLoop r ys st₁
      | (.error e, st₁) => (.error e, st₁) := by
  induction xs with
  | nil => intro st; rfl
  | cons f xs ih =>
      intro st
      rcases hp : perContainer r f st with ⟨res, st₁⟩
      cases res with
      | error e =>
          have h1 : processFolderLoop r ((f :: xs) ++ ys) st =
              (.error e, st₁) := by
            simp only [List.cons_append, processFolderLoop]
            exact run_bind_error hp
          have h2 : processFolderLoop r (f :: xs) st = (.error e, st₁) := by
            simp only [processFolderLoop]
            exact run_bind_error hp
          rw [h1, h2]
      | ok a =>
          have h1 : processFolderLoop r ((f :: xs) ++ ys) st =
              processFolderLoop r (xs ++ ys) st₁ := by
            simp only [List.cons_append, processFolderLoop]
            exact run_bind_ok hp
          have h2 : processFolderLoop r (f :: xs) st =
              processFolderLoop r xs st₁ := by
            simp only [processFolderLoop]
            exact run_bind_ok hp
          rw [h1, h2, ih st₁]

theorem loop_single_snd (r : Bool) (f : VPath) (st : VState) :
    ((processFolderLoop r [f] st).2) = ((perContainer r f st).2) := by
  rcases hp : perContainer r f st with ⟨res, st₁⟩
  cases res with
  | error e =>
      rw [show processFolderLoop r [f] st = (.error e, st₁) from by
        simp only [processFolderLoop]; exact run_bind_error hp]
  | ok a =>
      rw [show processFolderLoop r [f] st = processFolderLoop r [] st₁ from by
        simp only [processFolderLoop]; exact run_bind_ok hp]
      rfl

theorem loop_sinks_grow (r : Bool) (l : List VPath) : ∀ st : VState,
    st.sinks <+: ((processFolderLoop r l st).2).sinks := by
  induction l with
  | nil => intro st; exact List.prefix_refl _
  | cons f rest ih =>
      intro st
      rcases hp : perContainer r f st with ⟨res, st₁⟩
      have hs₁ : st₁.sinks = st.sinks ++ [logFilePath f] := by
        obtain ⟨n, hs, _⟩ := perContainer_effect r f st
        rw [hp] at hs
        exact hs
      have hpre : st.sinks <+: st₁.sinks := by
        rw [hs₁]; exact List.prefix_append _ _
      cases res with
      | error e =>
          rw [show processFolderLoop r (f :: rest) st = (.error e, st₁) from by
            simp only [processFolderLoop]; exact run_bind_error hp]
          exact hpre
      | ok a =>
          rw [show processFolderLoop r (f :: rest) st =
              processFolderLoop r rest st₁ from by
            simp only [processFolderLoop]; exact run_bind_ok hp]
          exact hpre.trans (ih st₁)

theorem loop_sinks_ok (r : Bool) (l : List VPath) : ∀ st : VState,
    (processFolderLoop r l st).1 = .ok () →
    ((processFolderLoop r l st).2).sinks = st.sinks ++ l.map logFilePath := by
  induction l with
  | nil =>
      intro st h
      simp [processFolderLoop, run_pure]
  | cons f rest ih =>
      intro st h
      rcases hp : perContainer r f st with ⟨res, st₁⟩
      have hs₁ : st₁.sinks = st.sinks ++ [logFilePath f] := by
        obtain ⟨n, hs, _⟩ := perContainer_effect r f st
        rw [hp] at hs
        exact hs
      cases res with
      | error e =>
          rw [show processFolderLoop r (f :: rest) st = (.error e, st₁) from by
            simp only [processFolderLoop]; exact run_bind_error hp] at h
          exact absurd h (by simp)
      | ok a =>
          rw [show processFolderLoop r (f :: rest) st =
              processFolderLoop r rest st₁ from by
            simp only [processFolderLoop]; exact run_bind_ok hp] at h ⊢
          rw [ih st₁ h, hs₁]
          simp

/-- C10: each per-container run of the batch loop adds a process-wide log
sink for `<parent>/<stem>/vpax.log` without ever removing previously added
sinks — the initial sink list stays a prefix of the final one, and a fully
successful run adds exactly one sink per container, in order.  Because each
log record is delivered to every sink configured at emission time, every
record emitted while processing a later container `j` is also delivered to
the `vpax.log` sink of each container `i` processed earlier in the run. -/
theorem c10_cross_container_logging (r : Bool) (l : List VPath)
    (st0 : VState) (i j : Nat) (hij : i < j) (hj : j < l.length) :
    st0.sinks <+: ((processFolderLoop r l st0).2).sinks ∧
    ((processFolderLoop r l st0).1 = .ok () →
      ((processFolderLoop r l st0).2).sinks =
        st0.sinks ++ l.map logFilePath) ∧
    ((processFolderLoop r (l.take j) st0).1 = .ok () →
      ∀ entry ∈ ((processFolderLoop r (l.take (j + 1)) st0).2).msgLog.drop
          (((processFolderLoop r (l.take j) st0).2).msgLog.length),
        logFilePath (l.get ⟨i, Nat.lt_trans hij hj⟩) ∈ entry.1) := by
  refine ⟨loop_sinks_grow r l st0, loop_sinks_ok r l st0, ?_⟩
  intro hok
  rcases hJ : processFolderLoop r (l.take j) st0 with ⟨resJ, stJ⟩
  have hresJ : resJ = .ok () := by
    have h := hok; rw [hJ] at h; exact h
  subst hresJ
  have hsJ : stJ.sinks = st0.sinks ++ (l.take j).map logFilePath := by
    have h := loop_sinks_ok r (l.take j) st0 (by rw [hJ])
    rw [hJ] at h
    exact h
  have hmemI : logFilePath (l.get ⟨i, Nat.lt_trans hij hj⟩) ∈ stJ.sinks := by
    rw [hsJ]
    refine List.mem_append.mpr (.inr ?_)
    refine List.mem_map.mpr ⟨l.get ⟨i, Nat.lt_trans hij hj⟩, ?_, rfl⟩
    have hlen : i < (l.take j).length := by
      rw [List.length_take]
      omega
    have he : (l.take j).get ⟨i, hlen⟩ = l.get ⟨i, Nat.lt_trans hij hj⟩ := by
      rw [List.get_eq_getElem, List.get_eq_getElem, List.getElem_take]
    rw [← he]
    exact List.get_mem _ _ _
  have htake : l.take (j + 1) = l.take j ++ [l.get ⟨j, hj⟩] := by
    rw [List.take_succ, List.getElem?_eq_getElem hj]
    rfl
  have hstep : processFolderLoop r (l.take (j + 1)) st0 =
      processFolderLoop r [l.get ⟨j, hj⟩] stJ := by
    rw [htake, loop_append, hJ]
  have hsnd : ((processFolderLoop r (l.take (j + 1)) st0).2) =
      ((perContainer r (l.get ⟨j, hj⟩) stJ).2) := by
    rw [hstep, loop_single_snd]
  obtain ⟨new, hsP, hmP⟩ := perContainer_effect r (l.get ⟨j, hj⟩) stJ
  intro entry hentry
  rw [hsnd, hmP, List.append_assoc, List.drop_left] at hentry
  rcases List.mem_append.mp hentry with h1 | h2
  · have : entry = (stJ.sinks,
        "Processing VPAX file: " ++ showPath (l.get ⟨j, hj⟩).filePath) := by
      simpa using h1
    rw [this]
    exact hmemI
  · obtain ⟨m, _, rfl⟩ := List.mem_map.mp h2
    exact List.mem_append.mpr (.inl hmemI)

theorem c10_cross_container_logging_witness :
    (processFolderLoop true (List.take 1 [wC1f, ⟨["D"], "Two.vpax"⟩])
      wGoodSt).1 = .ok () ∧
    logFilePath wC1f ∈
      ((((processFolderLoop true
          (List.take 2 [wC1f, ⟨["D"], "Two.vpax"⟩]) wGoodSt).2).msgLog.drop
        (((processFolderLoop true (List.take 1 [wC1f, ⟨["D"], "Two.vpax"⟩])
          wGoodSt).2).msgLog.length)).headD ([], "")).1 := by
  have h := c10_cross_container_logging true [wC1f, ⟨["D"], "Two.vpax"⟩]
    wGoodSt 0 1 (by decide) (by decide)
  have hok : (processFolderLoop true
      (List.take 1 [wC1f, ⟨["D"], "Two.vpax"⟩]) wGoodSt).1 = .ok () := by
    decide!
  refine ⟨hok, ?_⟩
  exact h.2.2 hok _ (by decide!)

end Vpax
